import Mathlib

/-!
Verification development for the jcal repository (Davoodeh/jcal): a shallow
embedding of the dual-calendar date abstraction (src/src/date.rs) and of the
calendar layout engine (src/cal/src/layout.rs, src/cal/src/string.rs),
together with theorems settling the frozen claims about them.

Strings are modelled as `List Char`.  The external `ansi_width` crate is
modelled by a per-character width function `cw : Char → Nat` threaded through
the string utilities; the layout engine only ever measures plain ASCII text
(digits, spaces, ASCII month/weekday names), for which every character has
rendered width 1, so the layout layer instantiates `cw` with `cw1 = fun _ => 1`.
-/

namespace JCal

/-! ## String utilities (src/cal/src/string.rs) -/

/-- Rendered width of a string: the sum of the widths of its characters
(models `ansi_width::ansi_width` on escape-free text). -/
def ansiWidthW (cw : Char → Nat) (s : List Char) : Nat := (s.map cw).sum

/-- Core of both `cut_end` and the loop of `repeat_for_ansi_width`: keep
characters while the accumulated width stays within `maximumWidth`; stop
(returning the kept characters) right before the character that would push the
accumulated width past `maximumWidth`. -/
def takeWidth (cw : Char → Nat) (maximumWidth : Nat) : List Char → Nat → List Char
  | [], _ => []
  | c :: rest, widthThisFar =>
    let w := widthThisFar + cw c
    if maximumWidth < w then [] else c :: takeWidth cw maximumWidth rest w

/-- Take characters while it fits in the maximum width (`cut_end`).  The result
is always a prefix of `s`, i.e. the cut happens at a code-point boundary. -/
def cutEnd (cw : Char → Nat) (s : List Char) (maximumWidth : Nat) : List Char :=
  takeWidth cw maximumWidth s 0

/-- Repeat `s` to fit the requested width (`repeat_for_ansi_width`).  The Rust
source loops over `s.chars().cycle()`; each full pass over `s` adds the (then
known to be positive) total width of `s`, so the loop always exits within
`maximumWidth + 1` passes.  We model the cycle by that many copies; the
stability of `repeatForAnsiWidthN` past this unrolling bound, proved below, is
the termination argument of the source loop. -/
def repeatForAnsiWidth (cw : Char → Nat) (s : List Char) (maximumWidth : Nat) : List Char :=
  if ansiWidthW cw s = 0 then []
  else takeWidth cw maximumWidth (List.flatten (List.replicate (maximumWidth + 1) s)) 0

/-- The same loop unrolled for `copies` passes over `s`; used to state that the
cycle of the source stabilizes (terminates) at `maximumWidth + 1` passes. -/
def repeatForAnsiWidthN (cw : Char → Nat) (s : List Char) (maximumWidth copies : Nat) :
    List Char :=
  if ansiWidthW cw s = 0 then []
  else takeWidth cw maximumWidth (List.flatten (List.replicate copies s)) 0

/-- `Aligner`: shift a string right, left or to the center by repeating the
given filler, patching non-integer-width overruns with `fillerAdjust`. -/
structure Aligner where
  filler : List Char
  fillerAdjust : Char

/-- The `Aligner::SPACE` constant. -/
def spaceAligner : Aligner := ⟨[' '], ' '⟩

/-- Return the filler with the exact width (`Aligner::filler`): repeat the
filler, then push `fillerAdjust` once per missing width unit. -/
def Aligner.fillerFor (a : Aligner) (cw : Char → Nat) (neededWidth : Nat) : List Char :=
  let f := repeatForAnsiWidth cw a.filler neededWidth
  f ++ List.replicate (neededWidth - ansiWidthW cw f) a.fillerAdjust

/-- Shift the given string to right by repeating the filler (`Aligner::right`). -/
def Aligner.right (a : Aligner) (cw : Char → Nat) (s : List Char) (width : Nat) : List Char :=
  if ansiWidthW cw s < width then a.fillerFor cw (width - ansiWidthW cw s) ++ s
  else if ansiWidthW cw s = width then s
  else cutEnd cw s width

/-- Append the repeating filler to the end to fit the exact width (`Aligner::left`). -/
def Aligner.left (a : Aligner) (cw : Char → Nat) (s : List Char) (width : Nat) : List Char :=
  if ansiWidthW cw s < width then s ++ a.fillerFor cw (width - ansiWidthW cw s)
  else if ansiWidthW cw s = width then s
  else cutEnd cw s width

/-- Shift the value to the center, preferring the extra filler unit on the
right (`Aligner::center`). -/
def Aligner.center (a : Aligner) (cw : Char → Nat) (s : List Char) (width : Nat) : List Char :=
  if ansiWidthW cw s < width then
    let padding := width - ansiWidthW cw s
    a.fillerFor cw (padding / 2) ++ s ++ a.fillerFor cw (padding / 2 + padding % 2)
  else if ansiWidthW cw s = width then s
  else cutEnd cw s width

/-- Width function for the plain ASCII text measured inside the layout engine:
every character occurring there renders one column wide. -/
def cw1 : Char → Nat := fun _ => 1

/-- Reverse-video highlighting (`string::highlight`, via the `colored` crate):
wraps the text in the ANSI SGR sequences `ESC [ 7 m` and `ESC [ 0 m`. -/
def highlightL (s : List Char) : List Char :=
  [Char.ofNat 27, '[', '7', 'm'] ++ s ++ [Char.ofNat 27, '[', '0', 'm']

/-- Rust `char::is_whitespace` restricted to the characters the layout engine
ever produces (ASCII text and the ESC character, which is not whitespace). -/
def rustIsWhitespace (c : Char) : Bool := c = ' ' || c = '\t' || c = '\n' || c = '\r'

/-- Models `s.trim_start().is_empty()`. -/
def trimStartIsEmpty (s : List Char) : Bool := (s.dropWhile rustIsWhitespace).isEmpty

/-- Decimal digit characters of a natural number, most significant first
(models integer `to_string()`); fuel-based so it evaluates by `decide`. -/
def natCharsAux : Nat → Nat → List Char
  | 0, _ => []
  | fuel + 1, n =>
    if n < 10 then [Char.ofNat (48 + n)]
    else natCharsAux fuel (n / 10) ++ [Char.ofNat (48 + n % 10)]

/-- Decimal representation of `n` as characters. -/
def natChars (n : Nat) : List Char := natCharsAux (n + 1) n

/-! ## Weekdays (the `jelal::Weekday` interface used by the repository)

Modelled from the spec: `jelal` is an external crate of the project; its
weekdays are Sunday-based indices 0..=6 (the repository's `WEEKDAYS` table is
Sunday-first and is indexed by `Weekday::get`). -/

/-- A weekday, Sunday-based: 0 = Sunday .. 6 = Saturday. -/
abbrev Weekday := Fin 7

/-- `Weekday::SUN`. -/
def Weekday.sun : Weekday := 0

/-- `Weekday::MON`. -/
def Weekday.mon : Weekday := 1

/-- `Weekday::SAT`. -/
def Weekday.sat : Weekday := 6

/-- Modelled from the spec: `Weekday::till_next` — the number of forward steps
from `a` to the next occurrence of `b` (0..=6). -/
def Weekday.tillNext (a b : Weekday) : Nat := (7 + b.val - a.val) % 7

/-- Modelled from the spec: `Weekday::forward` — the weekday `offset` steps
after `a`. -/
def Weekday.forward (a : Weekday) (offset : Nat) : Weekday :=
  ⟨(a.val + offset) % 7, Nat.mod_lt _ (by omega)⟩

/-- Modelled from the spec: `Weekday::count_weeks` — the base-weekday-rule week
number (0..=53) of the day with the given 1-based `ordinal`, where `self` is
the weekday of ordinal 1 of the year.  Days of the new year preceding the
first `base` weekday are week 0 (the POSIX `%U`-style rule, matching the
repository's grid tests: November 2025 with a Sunday base shows weeks 43–48). -/
def Weekday.countWeeks (newYearWeekday : Weekday) (ordinal : Nat) (base : Weekday) : Nat :=
  (ordinal + 6 - (newYearWeekday.val + (ordinal - 1) + (7 - base.val)) % 7) / 7

/-- Modelled from the spec: `Weekday::count_iso_weeks` — the ISO-8601 week
number (Monday-based, first-Thursday rule) of the day with the given 1-based
`ordinal`, where `self` is the weekday of ordinal 1; 0 means the day belongs
to the last week of the previous year. -/
def Weekday.countIsoWeeks (newYearWeekday : Weekday) (ordinal : Nat) : Nat :=
  let sundayBased := (newYearWeekday.val + (ordinal - 1)) % 7
  let isoWeekday := if sundayBased = 0 then 7 else sundayBased
  (ordinal + 10 - isoWeekday) / 7

/-! ## Proleptic Gregorian dates (`jiff::civil::Date` as used by src/src/date.rs)

`jiff` is an external dependency; its civil dates follow the standard
proleptic Gregorian rules with years restricted to -9999..=9999 (the
`JIFF_MIN_YEAR` / `JIFF_MAX_YEAR` constants of src/src/date.rs). -/

/-- Gregorian leap year rule. -/
def gregIsLeap (y : Int) : Bool := (y % 4 == 0 && y % 100 != 0) || y % 400 == 0

/-- The leap-day count of a year: 1 in a leap year, else 0. -/
def gregLeapBit (y : Int) : Nat := if gregIsLeap y then 1 else 0

/-- Length of Gregorian month `m` (1..=12) given the year's leap bit `lp`. -/
def gregMonthLenT (lp m : Nat) : Nat :=
  if m = 2 then 28 + lp
  else if m = 4 ∨ m = 6 ∨ m = 9 ∨ m = 11 then 30
  else 31

/-- Days strictly before month `m` (1..=12) given the year's leap bit `lp`. -/
def gregDaysBeforeMonthT (lp m : Nat) : Nat :=
  (if m ≤ 1 then 0
   else if m = 2 then 31
   else if m = 3 then 59
   else if m = 4 then 90
   else if m = 5 then 120
   else if m = 6 then 151
   else if m = 7 then 181
   else if m = 8 then 212
   else if m = 9 then 243
   else if m = 10 then 273
   else if m = 11 then 304
   else 334)
  + (if 3 ≤ m then lp else 0)

/-- Length of Gregorian month `m` (1..=12) of year `y`. -/
def gregMonthLen (y : Int) (m : Nat) : Nat := gregMonthLenT (gregLeapBit y) m

/-- Days in the months of year `y` strictly before month `m`, for `m` in 1..=12. -/
def gregDaysBeforeMonth (y : Int) (m : Nat) : Nat := gregDaysBeforeMonthT (gregLeapBit y) m

/-- A `jiff::civil::Date`: plain year/month/day fields. -/
structure CivilDate where
  year : Int
  month : Nat
  day : Nat
deriving DecidableEq

/-- The invariant `jiff` maintains for every constructed civil date. -/
def CivilDate.IsValid (d : CivilDate) : Prop :=
  -9999 ≤ d.year ∧ d.year ≤ 9999 ∧ 1 ≤ d.month ∧ d.month ≤ 12 ∧
    1 ≤ d.day ∧ d.day ≤ gregMonthLen d.year d.month

instance (d : CivilDate) : Decidable d.IsValid := by
  unfold CivilDate.IsValid; infer_instance

/-- `last_of_month().day()`: the last day number of the date's month. -/
def CivilDate.monthEndDay (d : CivilDate) : Nat := gregMonthLen d.year d.month

/-- `day_of_year()`: 1-based ordinal of the date within its year. -/
def CivilDate.ordinal (d : CivilDate) : Nat := gregDaysBeforeMonth d.year d.month + d.day

/-- `last_of_year().day_of_year()`: number of days in the date's year. -/
def CivilDate.yearEndOrdinal (d : CivilDate) : Nat := if gregIsLeap d.year then 366 else 365

/-- Month of the day with 1-based ordinal `ord` given the year's leap bit. -/
def gregOrdToMonthT (lp ord : Nat) : Nat :=
  if ord ≤ gregDaysBeforeMonthT lp 2 then 1
  else if ord ≤ gregDaysBeforeMonthT lp 3 then 2
  else if ord ≤ gregDaysBeforeMonthT lp 4 then 3
  else if ord ≤ gregDaysBeforeMonthT lp 5 then 4
  else if ord ≤ gregDaysBeforeMonthT lp 6 then 5
  else if ord ≤ gregDaysBeforeMonthT lp 7 then 6
  else if ord ≤ gregDaysBeforeMonthT lp 8 then 7
  else if ord ≤ gregDaysBeforeMonthT lp 9 then 8
  else if ord ≤ gregDaysBeforeMonthT lp 10 then 9
  else if ord ≤ gregDaysBeforeMonthT lp 11 then 10
  else if ord ≤ gregDaysBeforeMonthT lp 12 then 11
  else 12

/-- Month of the day with 1-based ordinal `ord` in year `y` (the decomposition
performed by `jiff`'s `with().day_of_year(..)`). -/
def gregOrdToMonth (y : Int) (ord : Nat) : Nat := gregOrdToMonthT (gregLeapBit y) ord

/-- `impl CommonDate for civil::Date`, `set_saturating_day`: clamp the new day
into `1..=month_end_day` and rebuild. -/
def CivilDate.setSatDay (d : CivilDate) (day : Nat) : CivilDate :=
  ⟨d.year, d.month, max 1 (min day d.monthEndDay)⟩

/-- `set_saturating_month`: clamp the month into `1..=12`, move to day 1, then
restore the previous day saturating to the new month's end. -/
def CivilDate.setSatMonth (d : CivilDate) (month : Nat) : CivilDate :=
  (CivilDate.mk d.year (max 1 (min month 12)) 1).setSatDay d.day

/-- `set_saturating_year`: clamp the year into `-9999..=9999`, move to day 1 of
the same month, then restore the previous day saturating to the month's end. -/
def CivilDate.setSatYear (d : CivilDate) (year : Int) : CivilDate :=
  (CivilDate.mk (max (-9999) (min year 9999)) d.month 1).setSatDay d.day

/-- `set_saturating_ordinal`: clamp the ordinal into `1..=year_end_ordinal` and
rebuild month and day from it. -/
def CivilDate.setSatOrdinal (d : CivilDate) (ordinal : Nat) : CivilDate :=
  let o := max 1 (min ordinal d.yearEndOrdinal)
  let m := gregOrdToMonth d.year o
  ⟨d.year, m, o - gregDaysBeforeMonth d.year m⟩

/-- Rata Die day number of a civil date (day 1 = 0001-01-01 proleptic
Gregorian); the absolute-day denotation of the date. -/
def civilAbsRd (d : CivilDate) : Int :=
  365 * (d.year - 1) + (d.year - 1) / 4 - (d.year - 1) / 100 + (d.year - 1) / 400 +
    (gregDaysBeforeMonth d.year d.month : Int) + (d.day : Int)

/-- Sunday-based weekday from a Rata Die day number (RD 0 was a Sunday). -/
def weekdayOfRd (rd : Int) : Weekday := ⟨(rd % 7).toNat, by omega⟩

/-- `weekday()` of a civil date. -/
def CivilDate.weekday (d : CivilDate) : Weekday := weekdayOfRd (civilAbsRd d)

/-! ## Jalali dates (the external `jelal::Date`)

Modelled from the spec: the `jelal` crate itself is not part of src/.  The
spec fixes its interface: a Jalali civil calendar whose dates always denote a
valid day (out-of-range components saturate), months 1..=6 have 31 days,
7..=11 have 30 days and month 12 has 29 or 30 days depending on a 33-year
leap cycle, and cross-calendar conversion is exact and total.  We represent a
date by its year and 1-based ordinal and anchor the calendar so that
Farvardin 1, 1404 is 2025-03-21 Gregorian. -/

/-- Number of days in Jalali years `1..n` (for `n ≥ 0`), i.e. days before year
`n + 1`; the 33-year cycle contributes `⌊(8n + 29) / 33⌋` leap days. -/
def jalaliDaysBefore (n : Int) : Int := 365 * n + (8 * n + 29) / 33

/-- Jalali leap year rule of the model: year `y` has 366 days exactly when the
cumulative leap count steps at `y`. -/
def jalaliIsLeap (y : Int) : Bool := (8 * y + 29) % 33 < 8

/-- Number of days in Jalali year `y`. -/
def jalaliYearLen (y : Int) : Nat := if jalaliIsLeap y then 366 else 365

/-- Length of Jalali month `m` (1..=12) of year `y`. -/
def jalaliMonthLen (y : Int) (m : Nat) : Nat :=
  if m ≤ 6 then 31 else if m ≤ 11 then 30 else if jalaliIsLeap y then 30 else 29

/-- Days in the Jalali months strictly before month `m`, for `m` in 1..=12. -/
def jalaliDaysBeforeMonth (m : Nat) : Nat :=
  if m ≤ 7 then 31 * (m - 1) else 186 + 30 * (m - 7)

/-- A `jelal::Date`: a year together with the 1-based ordinal of the day. -/
structure JalaliDate where
  year : Int
  ordinal : Nat
deriving DecidableEq

/-- The invariant `jelal` maintains for every constructed date. -/
def JalaliDate.IsValid (j : JalaliDate) : Prop :=
  1 ≤ j.ordinal ∧ j.ordinal ≤ jalaliYearLen j.year

instance (j : JalaliDate) : Decidable j.IsValid := by
  unfold JalaliDate.IsValid; infer_instance

/-- `From<(IYear, UOrdinal)>`: saturate the ordinal into the year's range. -/
def JalaliDate.fromYearOrdinal (y : Int) (ordinal : Nat) : JalaliDate :=
  ⟨y, max 1 (min ordinal (jalaliYearLen y))⟩

/-- `From<IYmd>`: saturate month into `1..=12` and day into the month's range,
then assemble the ordinal. -/
def JalaliDate.fromYmd (y : Int) (m d : Nat) : JalaliDate :=
  let m1 := max 1 (min m 12)
  let d1 := max 1 (min d (jalaliMonthLen y m1))
  ⟨y, jalaliDaysBeforeMonth m1 + d1⟩

/-- Month containing the day with 1-based Jalali ordinal `o`. -/
def jalaliMonthOfOrd (o : Nat) : Nat :=
  if o ≤ 186 then (o - 1) / 31 + 1 else min 12 ((o - 187) / 30 + 7)

/-- Day of month of the day with 1-based Jalali ordinal `o`. -/
def jalaliDayOfOrd (o : Nat) : Nat := o - jalaliDaysBeforeMonth (jalaliMonthOfOrd o)

/-- Month of a Jalali date, decomposed from its ordinal. -/
def JalaliDate.month (j : JalaliDate) : Nat := jalaliMonthOfOrd j.ordinal

/-- Day of month of a Jalali date. -/
def JalaliDate.day (j : JalaliDate) : Nat := jalaliDayOfOrd j.ordinal

/-- Rata Die day number of Farvardin 1, year 1 of the model (so that
Farvardin 1, 1404 falls on RD 739331 = 2025-03-21 Gregorian). -/
def jalaliEpochRd : Int := 226895

/-- Rata Die day number of a Jalali date; its absolute-day denotation. -/
def jalaliAbsRd (j : JalaliDate) : Int :=
  jalaliEpochRd + jalaliDaysBefore (j.year - 1) + (j.ordinal : Int) - 1

/-- `weekday()` of a Jalali date. -/
def JalaliDate.weekday (j : JalaliDate) : Weekday := weekdayOfRd (jalaliAbsRd j)

/-- The Jalali year index (year minus one) containing day offset `D` counted
from Farvardin 1, year 1: a closed-form candidate corrected by one step. -/
def jalaliYearOfDays (D : Int) : Int :=
  if jalaliDaysBefore ((33 * D + 3) / 12053) ≤ D then (33 * D + 3) / 12053
  else (33 * D + 3) / 12053 - 1

/-- The Jalali date of an absolute (Rata Die) day number; together with
`jalaliAbsRd` this is the exact, total cross-calendar conversion the spec
guarantees (`jelal::Date::from(civil::Date)` composes this with `civilAbsRd`). -/
def jalaliOfRd (rd : Int) : JalaliDate :=
  let D := rd - jalaliEpochRd
  let n := jalaliYearOfDays D
  ⟨n + 1, (D - jalaliDaysBefore n + 1).toNat⟩

/-- `jelal::Date::from(civil::Date)`: convert a Gregorian date to the Jalali
date denoting the same absolute day. -/
def jalaliOfCivil (g : CivilDate) : JalaliDate := jalaliOfRd (civilAbsRd g)

/-- `impl CommonDate for jelal::Date`, `set_saturating_year`:
`(year, self.ordinal()).into()`. -/
def JalaliDate.setSatYear (j : JalaliDate) (year : Int) : JalaliDate :=
  JalaliDate.fromYearOrdinal year j.ordinal

/-- `set_saturating_month`: `(self.year(), month, self.day()).into()`. -/
def JalaliDate.setSatMonth (j : JalaliDate) (month : Nat) : JalaliDate :=
  JalaliDate.fromYmd j.year month j.day

/-- `set_saturating_day`: `(self.year(), self.month(), day).into()`. -/
def JalaliDate.setSatDay (j : JalaliDate) (day : Nat) : JalaliDate :=
  JalaliDate.fromYmd j.year j.month day

/-- `set_saturating_ordinal`: `(self.year(), ordinal).into()`. -/
def JalaliDate.setSatOrdinal (j : JalaliDate) (ordinal : Nat) : JalaliDate :=
  JalaliDate.fromYearOrdinal j.year ordinal

/-- `month_end_day`: day of `(year, month, MonthDay::MAX_DAY = 31).into()`. -/
def JalaliDate.monthEndDay (j : JalaliDate) : Nat :=
  (JalaliDate.fromYmd j.year j.month 31).day

/-- `year_end_ordinal`: ordinal of `(year, Ordinal::MAX).into()`. -/
def JalaliDate.yearEndOrdinal (j : JalaliDate) : Nat :=
  (JalaliDate.fromYearOrdinal j.year 65535).ordinal

/-! ## The calendar-agnostic `Date` union (src/src/date.rs) -/

/-- The tagged union over the two concrete calendars. -/
inductive Date where
  | jalali : JalaliDate → Date
  | gregorian : CivilDate → Date
deriving DecidableEq

/-- Validity of the wrapped concrete date. -/
def Date.IsValid : Date → Prop
  | Date.jalali j => j.IsValid
  | Date.gregorian g => g.IsValid

instance (d : Date) : Decidable d.IsValid := by
  cases d <;> (unfold Date.IsValid; infer_instance)

/-- `CommonDate::year` dispatched through the union. -/
def Date.year : Date → Int
  | Date.jalali j => j.year
  | Date.gregorian g => g.year

/-- `CommonDate::month` dispatched through the union. -/
def Date.month : Date → Nat
  | Date.jalali j => j.month
  | Date.gregorian g => g.month

/-- `CommonDate::day` dispatched through the union. -/
def Date.day : Date → Nat
  | Date.jalali j => j.day
  | Date.gregorian g => g.day

/-- `CommonDate::ordinal` dispatched through the union. -/
def Date.ordinal : Date → Nat
  | Date.jalali j => j.ordinal
  | Date.gregorian g => g.ordinal

/-- `CommonDate::weekday` dispatched through the union. -/
def Date.weekday : Date → Weekday
  | Date.jalali j => j.weekday
  | Date.gregorian g => g.weekday

/-- `CommonDate::month_end_day` dispatched through the union. -/
def Date.monthEndDay : Date → Nat
  | Date.jalali j => j.monthEndDay
  | Date.gregorian g => g.monthEndDay

/-- `CommonDate::year_end_ordinal` dispatched through the union. -/
def Date.yearEndOrdinal : Date → Nat
  | Date.jalali j => j.yearEndOrdinal
  | Date.gregorian g => g.yearEndOrdinal

/-- `CommonDate::set_saturating_year` dispatched through the union. -/
def Date.setSatYear : Date → Int → Date
  | Date.jalali j, y => Date.jalali (j.setSatYear y)
  | Date.gregorian g, y => Date.gregorian (g.setSatYear y)

/-- `CommonDate::set_saturating_month` dispatched through the union. -/
def Date.setSatMonth : Date → Nat → Date
  | Date.jalali j, m => Date.jalali (j.setSatMonth m)
  | Date.gregorian g, m => Date.gregorian (g.setSatMonth m)

/-- `CommonDate::set_saturating_day` dispatched through the union. -/
def Date.setSatDay : Date → Nat → Date
  | Date.jalali j, d => Date.jalali (j.setSatDay d)
  | Date.gregorian g, d => Date.gregorian (g.setSatDay d)

/-- `CommonDate::set_saturating_ordinal` dispatched through the union. -/
def Date.setSatOrdinal : Date → Nat → Date
  | Date.jalali j, o => Date.jalali (j.setSatOrdinal o)
  | Date.gregorian g, o => Date.gregorian (g.setSatOrdinal o)

/-- `CommonDate::weeknum` (trait default): set a clone to ordinal 1, then
count base-weekday-rule weeks up to the date's own ordinal. -/
def Date.weeknum (d : Date) (base : Weekday) : Nat :=
  Weekday.countWeeks ((d.setSatOrdinal 1).weekday) d.ordinal base

/-- `CommonDate::iso_weeknum` (trait default). -/
def Date.isoWeeknum (d : Date) : Nat :=
  Weekday.countIsoWeeks ((d.setSatOrdinal 1).weekday) d.ordinal

/-- `CommonDate::set_saturating_weeknum` (trait default): clamp the week index
to `0..=53`, then set the ordinal (saturating) to `weeks * 7` plus the forward
distance from `base` to the date's current weekday. -/
def Date.setSatWeeknum (d : Date) (weeks : Nat) (base : Weekday) : Date :=
  let w := min weeks 53
  d.setSatOrdinal (w * 7 + base.tillNext d.weekday)

/-- Modelled from the spec: `jelal::Date::add_months` applied to a day-1
reference is plain year/month arithmetic. -/
def addMonthsYm (y : Int) (m : Nat) (months : Int) : Int × Nat :=
  let t := 12 * y + ((m : Int) - 1) + months
  (t / 12, (t % 12).toNat + 1)

/-- `CommonDate::set_saturating_months_offset` (trait default): add months to a
day-1 reference of the current year/month via `jelal` month arithmetic, then
write back year, month and day (= 1) through the saturating setters. -/
def Date.setSatMonthsOffset (d : Date) (months : Int) : Date :=
  let p := addMonthsYm d.year d.month months
  ((d.setSatYear p.1).setSatMonth p.2).setSatDay 1

/-- `impl PartialEq for Date` (src/src/date.rs lines 302-312): same-tag values
compare by their concrete dates; mixed-tag values convert the Gregorian side
to Jalali first. -/
def dateEq : Date → Date → Bool
  | Date.jalali j1, Date.jalali j2 => j1 == j2
  | Date.gregorian g1, Date.gregorian g2 => g1 == g2
  | Date.gregorian g, Date.jalali j => j == jalaliOfCivil g
  | Date.jalali j, Date.gregorian g => j == jalaliOfCivil g

/-! ## The grid and layout engine (src/cal/src/layout.rs) -/

/-- The repository's Sunday-first table of full weekday names (src/src/lib.rs). -/
def WEEKDAYS : List (List Char) :=
  ["Sunday".toList, "Monday".toList, "Tuesday".toList, "Wednesday".toList,
   "Thursday".toList, "Friday".toList, "Saturday".toList]

/-- Collect a column of weekday names from the base to the end (`weekdays`). -/
def weekdaysF (base : Weekday) : List (List Char) :=
  (List.range 7).map (fun offset => WEEKDAYS.getD (base.forward offset).val [])

/-- How week counting should work (`WeekNumConfig`). -/
inductive WeekNumConfig where
  | iso : WeekNumConfig
  | based : WeekNumConfig
deriving DecidableEq

/-- What to highlight (`Highlight`). -/
inductive Highlight where
  | week : Nat → Highlight
  | day : Date → Highlight
deriving DecidableEq

/-- `Highlight::day`. -/
def Highlight.day? : Highlight → Option Date
  | Highlight.day v => some v
  | Highlight.week _ => none

/-- `Highlight::week`. -/
def Highlight.week? : Highlight → Option Nat
  | Highlight.week v => some v
  | Highlight.day _ => none

/-- Week numbers in compatible cells with this grid (`weeknums`, const len 6):
the week number of the month's first day under the configured rule, plus the
cell index. -/
def weeknumsF (config : WeekNumConfig) (date : Date) (base : Weekday) : List Nat :=
  let date1 := date.setSatDay 1
  (List.range 6).map (fun i =>
    (match config with
     | WeekNumConfig.iso => date1.isoWeeknum
     | WeekNumConfig.based => date1.weeknum base) + i)

/-- The `weeknum == 0` fix-up inside `format_weeknums`: 0 means the last week
of the previous year, resolved by rebuilding a date at the last ordinal of
`year - 1` and taking its base-weekday-rule week number (`UOrdinal::MAX` is
65535 and saturates to the year's last ordinal). -/
def fixZeroWeeknum (date : Date) (base : Weekday) (wn : Nat) : Nat :=
  if wn = 0 then ((date.setSatYear (date.year - 1)).setSatOrdinal 65535).weeknum base
  else wn

/-- Count 6 weeks from the 1st of the given month, format and optionally
highlight (`format_weeknums`). -/
def formatWeeknums (date : Date) (base : Weekday) (config : WeekNumConfig)
    (highlightWeek : Option Nat) : List (List Char) :=
  (weeknumsF config date base).map (fun wn0 =>
    let wn := fixZeroWeeknum date base wn0
    let v := spaceAligner.right cw1 (natChars wn) 2
    if highlightWeek = some wn then highlightL v else v)

/-- Create a grid of 7x6 of weeks of a month and weekdays (`Grid`). -/
structure Grid where
  date : Date
  ordinalMode : Bool
  baseWeekday : Weekday
deriving DecidableEq

/-- How many characters make a single cell for writing a day of month. -/
def Grid.dayCellWidth (g : Grid) : Nat := if g.ordinalMode then 3 else 2

/-- Put a value in a cell size of this grid (`Grid::format_in_day_cell`). -/
def Grid.formatInDayCell (g : Grid) (s : List Char) : List Char :=
  spaceAligner.right cw1 s g.dayCellWidth

/-- Write one cell of the fill loop of `Grid::new_grid` into the matrix. -/
def setCell (cells : List (List Nat)) (row col v : Nat) : List (List Nat) :=
  cells.set row ((cells.getD row []).set col v)

/-- The fill loop of `Grid::new_grid`: place `count` consecutive day numbers
starting at `v` (shifted by `offset`) row-major from position (`row`, `i`),
wrapping to the next row after column 6. -/
def gridFill : Nat → List (List Nat) → Nat → Nat → Nat → Nat → List (List Nat)
  | 0, cells, _, _, _, _ => cells
  | count + 1, cells, row, i, v, offset =>
    let cells1 := setCell cells row i (v + offset)
    if i = 6 then gridFill count cells1 (row + 1) 0 (v + 1) offset
    else gridFill count cells1 row (i + 1) (v + 1) offset

/-- Create a grid in 7 days times 6 weeks formation (`Grid::new_grid`). -/
def Grid.newGrid (g : Grid) : List (List Nat) :=
  let startMonth := g.date.setSatDay 1
  let monthEnd := g.date.monthEndDay
  let offset := if g.ordinalMode then startMonth.ordinal - 1 else 0
  let firstI := g.baseWeekday.tillNext startMonth.weekday
  gridFill monthEnd (List.replicate 6 (List.replicate 7 0)) 0 firstI 1 offset

/-- The `is_highlight` closure of `Grid::format`: rebuild a full date from the
cell's day (or ordinal in ordinal mode) and compare with the highlight day by
calendar-agnostic `Date` equality. -/
def Grid.isHighlightDay (g : Grid) (highlightDay : Option Date) (day : Nat) : Bool :=
  match highlightDay with
  | none => false
  | some hday =>
    let date := if g.ordinalMode then g.date.setSatOrdinal day else g.date.setSatDay day
    dateEq hday date

/-- Format a 7x6 grid of weeks as strings, optionally a day brighter
(`Grid::format`): blank cells become an empty day cell, other cells the
right-aligned day number, highlighted when it matches the highlight day. -/
def Grid.format (g : Grid) (highlightDay : Option Date) : List (List (List Char)) :=
  (g.newGrid).map (fun r =>
    r.map (fun value =>
      if value = 0 then g.formatInDayCell []
      else
        let s := g.formatInDayCell (natChars value)
        if g.isHighlightDay highlightDay value then highlightL s else s))

/-- Holds a grid in string format (`ColumnContent`). -/
structure ColumnContent where
  weeknums : Option WeekNumConfig
  weeknumsBeforeGrid : Bool
  weekdays : Bool
  weekdaysBeforeGrid : Bool
  grid : Grid
deriving DecidableEq

/-- `ColumnContent::WEEKNUM_EMPTY`. -/
def weeknumEmptyCell : List Char := [' ', ' ']

/-- Return the weekdays helper even if weeknums is off
(`ColumnContent::format_weekdays_force`). -/
def ColumnContent.formatWeekdaysForce (cc : ColumnContent) : List (List Char) :=
  let v := (weekdaysF cc.grid.baseWeekday).map (fun s => cc.grid.formatInDayCell s)
  if cc.weeknums.isSome then
    (if cc.weeknumsBeforeGrid then weeknumEmptyCell :: v else v ++ [weeknumEmptyCell])
  else v

/-- How many rows and columns will this formatted value have
(`ColumnContent::row_cols`). -/
def ColumnContent.rowCols (cc : ColumnContent) : Nat × Nat :=
  (6 + (if cc.weekdays then 1 else 0), 7 + (if cc.weeknums.isSome then 1 else 0))

/-- `ColumnContent::format`: the formatted grid, with the week-number column
attached (blank where the grid row is entirely blank) and the weekday row
attached, each before or after the grid as configured. -/
def ColumnContent.format (cc : ColumnContent) (hl : Option Highlight) :
    List (List (List Char)) :=
  let grid0 := cc.grid.format (hl.bind Highlight.day?)
  let grid1 :=
    match cc.weeknums with
    | none => grid0
    | some c =>
      let cols := formatWeeknums cc.grid.date cc.grid.baseWeekday c (hl.bind Highlight.week?)
      List.zipWith
        (fun r v =>
          let col := if r.all (fun cell => trimStartIsEmpty cell) then weeknumEmptyCell else v
          if cc.weeknumsBeforeGrid then col :: r else r ++ [col])
        grid0 cols
  if cc.weekdays then
    (if cc.weekdaysBeforeGrid then cc.formatWeekdaysForce :: grid1
     else grid1 ++ [cc.formatWeekdaysForce])
  else grid1

/-- The year-boundary check of `Layout::print` (src/cal/src/layout.rs lines
700-708): clone the start date, offset it by the requested month count
(clamped to `i32::MAX`), and force year numbers into the column headers when
the year changed. -/
def printForcesYearHeader (date : Date) (monthsRequested : Nat) : Bool :=
  let initial := date.year
  let advanced := date.setSatMonthsOffset ((min monthsRequested 2147483647 : Nat) : Int)
  initial != advanced.year

/-- Modelled from the spec: the behaviour §4.2 ascribes to
`set_saturating_weeknum` — the ordinal offset added to `weeks * 7` is computed
from the base weekday relative to the weekday of ordinal 1 of the date's year
(the code instead uses the date's current weekday); kept for comparison with
`Date.setSatWeeknum`. -/
def specSetSatWeeknum (d : Date) (weeks : Nat) (base : Weekday) : Date :=
  let w := min weeks 53
  d.setSatOrdinal (w * 7 + base.tillNext ((d.setSatOrdinal 1).weekday))

/-- Numeric cell lookup in a grid matrix. -/
def cellAt (cells : List (List Nat)) (r c : Nat) : Nat := (cells.getD r []).getD c 0

/-- String cell lookup in a formatted matrix. -/
def scellAt (m : List (List (List Char))) (r c : Nat) : List Char := (m.getD r []).getD c []


/-- The row step of the week-number column attachment inside
`ColumnContent::format`, factored out of the `zip` closure for the proofs
(definitionally equal to the closure in `ColumnContent.format`). -/
def weeknumAttachRow (wb : Bool) (r : List (List Char)) (v : List Char) : List (List Char) :=
  let col := if r.all (fun cell => trimStartIsEmpty cell) then weeknumEmptyCell else v
  if wb then col :: r else r ++ [col]

/-- The weekday-row attachment step of `ColumnContent::format`: prepend or
append the extra row `W` to `L` according to the flags (definitionally equal to
the trailing conditional of `ColumnContent.format`). -/
def attachOuter {α : Type} (wd wdb : Bool) (W : α) (L : List α) : List α :=
  if wd then (if wdb then W :: L else L ++ [W]) else L


/-! ## Claim conclusion predicates (definitions used by the claim theorems) -/

/-- The saturation contract of the four `CommonDate` setters on a `Date`: each
setter clamps its argument into the valid range (for the Gregorian year, into
`-9999..=9999`; the modelled Jalali year range is unbounded, so its year
setter stores the year as given) and leaves the date valid. -/
def commonDateSaturConc (d : Date) (dayArg monthArg ordArg : Nat) (yearArg : Int) : Prop :=
  ((d.setSatDay dayArg).day = max 1 (min dayArg d.monthEndDay) ∧ (d.setSatDay dayArg).IsValid) ∧
  ((d.setSatMonth monthArg).month = max 1 (min monthArg 12) ∧
    (d.setSatMonth monthArg).IsValid) ∧
  ((d.setSatOrdinal ordArg).ordinal = max 1 (min ordArg d.yearEndOrdinal) ∧
    (d.setSatOrdinal ordArg).IsValid) ∧
  ((d.setSatYear yearArg).year =
      (match d with
       | Date.gregorian _ => max (-9999) (min yearArg 9999)
       | Date.jalali _ => yearArg) ∧
    (d.setSatYear yearArg).IsValid)

/-- The `Date` equality contract: cross-tag comparisons hold exactly when both
sides denote the same absolute (Rata Die) day, in either argument order, and
equivalently when the Jalali side is the conversion of the Gregorian side;
same-tag comparisons hold exactly on equal concrete dates. -/
def dateCrossEqConc (g : CivilDate) (j : JalaliDate) : Prop :=
  (dateEq (Date.gregorian g) (Date.jalali j) = true ↔ jalaliAbsRd j = civilAbsRd g) ∧
  (dateEq (Date.jalali j) (Date.gregorian g) = true ↔ jalaliAbsRd j = civilAbsRd g) ∧
  (dateEq (Date.gregorian g) (Date.jalali j) = true ↔ j = jalaliOfCivil g) ∧
  (∀ g2 : CivilDate, dateEq (Date.gregorian g) (Date.gregorian g2) = true ↔ g = g2) ∧
  (∀ j2 : JalaliDate, dateEq (Date.jalali j) (Date.jalali j2) = true ↔ j = j2)


/-- The Grid contract claimed for every month of either calendar (C1): the raw
grid is 6×7; the leading-blank index is the weekday distance from the base
weekday to the weekday of day 1 and is at most 6; the month length is in
1..=31; every cell holds, in row-major order from that index, the day numbers
1..=month_end_day (shifted by ordinal-of-day-1 − 1 in ordinal mode) and 0
elsewhere — hence exactly one leading and one trailing blank run; and the
formatted grid is 6×7 with blank string cells exactly at the zero cells. -/
def gridConc (d : Date) (om : Bool) (b : Weekday) : Prop :=
  (Grid.mk d om b).newGrid.length = 6 ∧
  (∀ r, r < 6 → ((Grid.mk d om b).newGrid.getD r []).length = 7) ∧
  b.tillNext (d.setSatDay 1).weekday ≤ 6 ∧
  1 ≤ d.monthEndDay ∧ d.monthEndDay ≤ 31 ∧
  (∀ r, r < 6 → ∀ c, c < 7 →
    cellAt ((Grid.mk d om b).newGrid) r c =
      (if b.tillNext (d.setSatDay 1).weekday ≤ 7 * r + c ∧
          7 * r + c < b.tillNext (d.setSatDay 1).weekday + d.monthEndDay
       then (7 * r + c - b.tillNext (d.setSatDay 1).weekday + 1) +
         (if om then (d.setSatDay 1).ordinal - 1 else 0)
       else 0)) ∧
  (∀ r, r < 6 → ∀ c, c < 7 →
    (cellAt ((Grid.mk d om b).newGrid) r c = 0 ↔
      7 * r + c < b.tillNext (d.setSatDay 1).weekday ∨
      b.tillNext (d.setSatDay 1).weekday + d.monthEndDay ≤ 7 * r + c)) ∧
  (∀ hday : Option Date,
    ((Grid.mk d om b).format hday).length = 6 ∧
    (∀ r, r < 6 → (((Grid.mk d om b).format hday).getD r []).length = 7) ∧
    (∀ r, r < 6 → ∀ c, c < 7 →
      (scellAt ((Grid.mk d om b).format hday) r c = (Grid.mk d om b).formatInDayCell [] ↔
        cellAt ((Grid.mk d om b).newGrid) r c = 0)))


/-- The actual behaviour of `set_saturating_weeknum` (amended C5): the year is
unchanged and the ordinal becomes `7 * clamp(weeks, 0, 53)` plus the forward
distance from the base weekday to the date's current weekday, saturated into
the year's valid ordinal range, leaving a valid date. -/
def setSatWeeknumConc (d : Date) (weeks : Nat) (base : Weekday) : Prop :=
  (d.setSatWeeknum weeks base).year = d.year ∧
  (d.setSatWeeknum weeks base).ordinal =
    max 1 (min (min weeks 53 * 7 + base.tillNext d.weekday) d.yearEndOrdinal) ∧
  (d.setSatWeeknum weeks base).IsValid

/-- The actual year-header forcing rule of `Layout::print` (amended C8): year
numbers are forced exactly when the start month plus the requested month count
reaches past the year's final month, i.e. when `month + N ≥ 13`. -/
def forcesYearConc (d : Date) (n : Nat) : Prop :=
  printForcesYearHeader d n = decide (13 ≤ d.month + n)


/-- The actual behaviour of `format_weeknums` without highlighting (amended
C6): six cells; the raw week numbers are the configured-rule week number of
the month's first day plus the cell index (so only the first cell can be 0);
each cell shows, right-aligned to width 2, the raw number after the zero
fix-up, which always substitutes the *base-weekday-rule* week number of the
last day of the previous year (regardless of the configured rule), a value
that is always 52 or 53. -/
def formatWeeknumsConc (d : Date) (b : Weekday) (cfg : WeekNumConfig) : Prop :=
  (formatWeeknums d b cfg none).length = 6 ∧
  (∀ i, i < 6 → (weeknumsF cfg d b).getD i 0 = (weeknumsF cfg d b).getD 0 0 + i) ∧
  (∀ i, 1 ≤ i → i < 6 → (weeknumsF cfg d b).getD i 0 ≠ 0) ∧
  (∀ i, i < 6 →
    (formatWeeknums d b cfg none).getD i [] =
      spaceAligner.right cw1 (natChars (fixZeroWeeknum d b ((weeknumsF cfg d b).getD i 0))) 2) ∧
  (∀ i, i < 6 → ((formatWeeknums d b cfg none).getD i []).length = 2) ∧
  (52 ≤ ((d.setSatYear (d.year - 1)).setSatOrdinal 65535).weeknum b ∧
    ((d.setSatYear (d.year - 1)).setSatOrdinal 65535).weeknum b ≤ 53)

/-- The actual highlighting rule of `format_weeknums` (amended C7): a cell is
highlighted exactly when its displayed (zero-fixed) week number equals the
highlight index `k` — the comparison is per cell against the displayed value,
not against the cell's 1-based position in the layout. -/
def highlightWeekConc (d : Date) (b : Weekday) (cfg : WeekNumConfig) (k : Nat) : Prop :=
  ∀ i, i < 6 →
    (formatWeeknums d b cfg (some k)).getD i [] =
      (if fixZeroWeeknum d b ((weeknumsF cfg d b).getD i 0) = k
       then highlightL (spaceAligner.right cw1
         (natChars (fixZeroWeeknum d b ((weeknumsF cfg d b).getD i 0))) 2)
       else spaceAligner.right cw1
         (natChars (fixZeroWeeknum d b ((weeknumsF cfg d b).getD i 0))) 2)


/-- The `ColumnContent::format` contract (C9): the matrix has exactly
`row_cols()` dimensions for every flag combination and highlight, and when a
week-number lane is enabled, the week-number cell of each grid row is the
blank cell exactly when that grid row is entirely blank, otherwise the
corresponding `format_weeknums` cell. -/
def columnContentConc (cc : ColumnContent) (hl : Option Highlight) : Prop :=
  (cc.format hl).length = cc.rowCols.1 ∧
  (∀ r, r < cc.rowCols.1 → (((cc.format hl).getD r []).length = cc.rowCols.2)) ∧
  (∀ cfg, cc.weeknums = some cfg → ∀ i, i < 6 →
    scellAt (cc.format hl) (i + (if cc.weekdays = true ∧ cc.weekdaysBeforeGrid = true then 1 else 0))
        (if cc.weeknumsBeforeGrid then 0 else 7) =
      (if (cc.grid.newGrid.getD i []).all (fun cell => cell == 0)
       then weeknumEmptyCell
       else (formatWeeknums cc.grid.date cc.grid.baseWeekday cfg
          (hl.bind Highlight.week?)).getD i []))

/-! ## Lemmas: string utilities -/

theorem ansiWidthW_append (cw : Char → Nat) (a b : List Char) :
    ansiWidthW cw (a ++ b) = ansiWidthW cw a + ansiWidthW cw b := by
  simp [ansiWidthW]

theorem ansiWidthW_cons (cw : Char → Nat) (c : Char) (l : List Char) :
    ansiWidthW cw (c :: l) = cw c + ansiWidthW cw l := by
  simp [ansiWidthW]

theorem ansiWidthW_replicate (cw : Char → Nat) (n : Nat) (c : Char) :
    ansiWidthW cw (List.replicate n c) = n * cw c := by
  induction n with
  | zero => simp [ansiWidthW]
  | succ k ih => simp [List.replicate_succ, ansiWidthW_cons, ih, Nat.succ_mul]; omega

theorem ansiWidthW_flatten_replicate (cw : Char → Nat) (n : Nat) (s : List Char) :
    ansiWidthW cw (List.flatten (List.replicate n s)) = n * ansiWidthW cw s := by
  induction n with
  | zero => simp [ansiWidthW]
  | succ k ih => simp [List.replicate_succ, ansiWidthW_append, ih, Nat.succ_mul]; omega

theorem takeWidth_width_le (cw : Char → Nat) (w : Nat) :
    ∀ (l : List Char) (acc : Nat), acc ≤ w →
      acc + ansiWidthW cw (takeWidth cw w l acc) ≤ w := by
  intro l
  induction l with
  | nil => intro acc h; simp [takeWidth, ansiWidthW]; omega
  | cons c rest ih =>
    intro acc h
    simp only [takeWidth]
    split
    · simp [ansiWidthW]; omega
    · rename_i hle
      have := ih (acc + cw c) (by omega)
      simp only [ansiWidthW_cons]
      omega

theorem takeWidth_of_acc_gt (cw : Char → Nat) (w : Nat) :
    ∀ (l : List Char) (acc : Nat), w < acc → takeWidth cw w l acc = [] := by
  intro l
  induction l with
  | nil => intro acc _; simp [takeWidth]
  | cons c rest _ =>
    intro acc h
    simp only [takeWidth]
    split
    · rfl
    · omega

theorem takeWidth_append_of_gt (cw : Char → Nat) (w : Nat) :
    ∀ (l l2 : List Char) (acc : Nat), w < acc + ansiWidthW cw l →
      takeWidth cw w (l ++ l2) acc = takeWidth cw w l acc := by
  intro l
  induction l with
  | nil =>
    intro l2 acc h
    simp only [ansiWidthW, List.map_nil, List.sum_nil, Nat.add_zero] at h
    simp [takeWidth, takeWidth_of_acc_gt cw w l2 acc h]
  | cons c rest ih =>
    intro l2 acc h
    simp only [List.cons_append, takeWidth]
    split
    · rfl
    · rename_i hle
      simp only [List.append_eq]
      rw [ih l2 (acc + cw c) (by simp only [ansiWidthW_cons] at h; omega)]

theorem takeWidth_isTake (cw : Char → Nat) (w : Nat) :
    ∀ (l : List Char) (acc : Nat), ∃ k, takeWidth cw w l acc = l.take k := by
  intro l
  induction l with
  | nil => intro acc; exact ⟨0, by simp [takeWidth]⟩
  | cons c rest ih =>
    intro acc
    simp only [takeWidth]
    split
    · exact ⟨0, by simp⟩
    · obtain ⟨k, hk⟩ := ih (acc + cw c)
      exact ⟨k + 1, by simp [hk]⟩

theorem takeWidth_width_eq_of_le_one (cw : Char → Nat) (w : Nat) :
    ∀ (l : List Char) (acc : Nat), (∀ c ∈ l, cw c ≤ 1) → acc ≤ w →
      w < acc + ansiWidthW cw l →
      acc + ansiWidthW cw (takeWidth cw w l acc) = w := by
  intro l
  induction l with
  | nil => intro acc _ _ h; simp [ansiWidthW] at h; omega
  | cons c rest ih =>
    intro acc hone hacc h
    have hc : cw c ≤ 1 := hone c (by simp)
    simp only [ansiWidthW_cons] at h
    simp only [takeWidth]
    split
    · simp only [ansiWidthW, List.map_nil, List.sum_nil]; omega
    · rename_i hle
      have := ih (acc + cw c) (fun x hx => hone x (by simp [hx])) (by omega) (by omega)
      simp only [ansiWidthW_cons]
      omega

theorem takeWidth_all_one_take (cw : Char → Nat) (w : Nat) :
    ∀ (l : List Char) (acc : Nat), (∀ c ∈ l, cw c = 1) → acc ≤ w →
      takeWidth cw w l acc = l.take (w - acc) := by
  intro l
  induction l with
  | nil => intro acc _ _; simp [takeWidth]
  | cons c rest ih =>
    intro acc hone hacc
    have hc : cw c = 1 := hone c (by simp)
    simp only [takeWidth, hc]
    split
    · have : w = acc := by omega
      simp [this]
    · rw [ih (acc + 1) (fun x hx => hone x (by simp [hx])) (by omega)]
      have h1 : w - acc = (w - (acc + 1)) + 1 := by omega
      simp [h1]

theorem repeatForAnsiWidth_width_le (cw : Char → Nat) (s : List Char) (w : Nat) :
    ansiWidthW cw (repeatForAnsiWidth cw s w) ≤ w := by
  unfold repeatForAnsiWidth
  split
  · simp [ansiWidthW]
  · have := takeWidth_width_le cw w (List.flatten (List.replicate (w + 1) s)) 0 (by omega)
    omega

theorem Aligner.fillerFor_width (a : Aligner) (cw : Char → Nat)
    (hadj : cw a.fillerAdjust = 1) (n : Nat) :
    ansiWidthW cw (a.fillerFor cw n) = n := by
  unfold Aligner.fillerFor
  have h1 := repeatForAnsiWidth_width_le cw a.filler n
  rw [ansiWidthW_append, ansiWidthW_replicate, hadj]
  omega

/-! ## Claims C10 and C4 -/

/-- C10: For every filler string `s` and maximum width `w`,
`repeat_for_ansi_width` terminates and returns a string whose measured width
is at most `w`; when `s` itself measures width 0 it returns the empty string.
Termination holds even when `s` contains individual zero-width characters
because each full cycle through `s` adds positive width: the third conjunct
shows the loop, unrolled for any number of extra passes beyond the
`w + 1`-pass bound, never changes its output. -/
theorem repeatForAnsiWidth_spec (cw : Char → Nat) (s : List Char) (w : Nat) :
    ansiWidthW cw (repeatForAnsiWidth cw s w) ≤ w ∧
    (ansiWidthW cw s = 0 → repeatForAnsiWidth cw s w = []) ∧
    (1 ≤ ansiWidthW cw s →
      ∀ m, repeatForAnsiWidthN cw s w (w + 1 + m) = repeatForAnsiWidth cw s w) := by
  refine ⟨repeatForAnsiWidth_width_le cw s w, ?_, ?_⟩
  · intro h
    unfold repeatForAnsiWidth
    simp [h]
  · intro h m
    unfold repeatForAnsiWidthN repeatForAnsiWidth
    have hne : ¬ ansiWidthW cw s = 0 := by omega
    simp only [hne, if_false]
    rw [List.replicate_add, List.flatten_append]
    apply takeWidth_append_of_gt
    rw [ansiWidthW_flatten_replicate]
    have h2 : w + 1 ≤ (w + 1) * ansiWidthW cw s := Nat.le_mul_of_pos_right _ (by omega)
    omega

/-- Witness for C10: the stabilization clause applied at a concrete input. -/
theorem repeatForAnsiWidth_spec_witness :
    repeatForAnsiWidthN cw1 [' '] 3 6 = repeatForAnsiWidth cw1 [' '] 3 :=
  (repeatForAnsiWidth_spec cw1 [' '] 3).2.2 (by decide) 2

/-- A double-width character (U+1F980), used to exhibit the truncation-path
width shortfall of the aligner. -/
def wideGlyph : Char := Char.ofNat 129408

/-- A demonstration width function: `wideGlyph` renders two columns wide,
everything else one. -/
def cwDemo : Char → Nat := fun c => if c = wideGlyph then 2 else 1

/-- Counterexample to C4 as stated: with the single-width space filler and the
content `"x🦀"` (measured width 3) and target width 2, the truncation path
returns `"x"` of measured width 1, not a string of width 2 (this is the
repository's own `cut_end` unit test case). -/
theorem aligner_truncation_width_counterexample :
    2 < ansiWidthW cwDemo ['x', wideGlyph] ∧
    cwDemo spaceAligner.fillerAdjust = 1 ∧
    ansiWidthW cwDemo spaceAligner.filler = 1 ∧
    spaceAligner.right cwDemo ['x', wideGlyph] 2 = ['x'] ∧
    ansiWidthW cwDemo (spaceAligner.right cwDemo ['x', wideGlyph] 2) = 1 := by
  decide

/-- The amended width contract of `Aligner::right` / `left` / `center` with an
adjust character of width 1: padding reaches the target width exactly and an
equal-width content is returned unchanged, while the truncation path cuts at a
code-point boundary to measured width at most (not exactly) the target, with
equality whenever every character of the content is at most single-width. -/
def alignerWidthConc (cw : Char → Nat) (a : Aligner) (s : List Char) (w : Nat) : Prop :=
  (ansiWidthW cw s < w →
    ansiWidthW cw (a.right cw s w) = w ∧
    ansiWidthW cw (a.left cw s w) = w ∧
    ansiWidthW cw (a.center cw s w) = w) ∧
  (ansiWidthW cw s = w →
    a.right cw s w = s ∧ a.left cw s w = s ∧ a.center cw s w = s) ∧
  (w < ansiWidthW cw s →
    a.right cw s w = cutEnd cw s w ∧ a.left cw s w = cutEnd cw s w ∧
    a.center cw s w = cutEnd cw s w ∧
    (∃ k, cutEnd cw s w = s.take k) ∧
    ansiWidthW cw (cutEnd cw s w) ≤ w ∧
    ((∀ c ∈ s, cw c ≤ 1) → ansiWidthW cw (cutEnd cw s w) = w))

/-- C4 (amended): the aligner width contract, for every width function, every
aligner whose adjust character is single-width, every content and target. -/
theorem aligner_width_spec (cw : Char → Nat) (a : Aligner) (s : List Char) (w : Nat)
    (hadj : cw a.fillerAdjust = 1) : alignerWidthConc cw a s w := by
  unfold alignerWidthConc
  refine ⟨?_, ?_, ?_⟩
  · intro h
    have hr : ¬ ansiWidthW cw s = w := by omega
    refine ⟨?_, ?_, ?_⟩
    · simp only [Aligner.right, if_pos h]
      rw [ansiWidthW_append, a.fillerFor_width cw hadj]
      omega
    · simp only [Aligner.left, if_pos h]
      rw [ansiWidthW_append, a.fillerFor_width cw hadj]
      omega
    · simp only [Aligner.center, if_pos h]
      rw [ansiWidthW_append, ansiWidthW_append, a.fillerFor_width cw hadj,
        a.fillerFor_width cw hadj]
      omega
  · intro h
    have hn : ¬ ansiWidthW cw s < w := by omega
    exact ⟨by simp only [Aligner.right, if_neg hn, if_pos h],
      by simp only [Aligner.left, if_neg hn, if_pos h],
      by simp only [Aligner.center, if_neg hn, if_pos h]⟩
  · intro h
    have hn : ¬ ansiWidthW cw s < w := by omega
    have hr : ¬ ansiWidthW cw s = w := by omega
    refine ⟨by simp only [Aligner.right, if_neg hn, if_neg hr],
      by simp only [Aligner.left, if_neg hn, if_neg hr],
      by simp only [Aligner.center, if_neg hn, if_neg hr],
      takeWidth_isTake cw w s 0, ?_, ?_⟩
    · have := takeWidth_width_le cw w s 0 (by omega)
      unfold cutEnd
      omega
    · intro hone
      have := takeWidth_width_eq_of_le_one cw w s 0 hone (by omega) (by omega)
      unfold cutEnd
      omega

/-- Witness for C4 (amended): the contract applied to the space aligner at a
concrete content and width. -/
theorem aligner_width_spec_witness :
    cw1 spaceAligner.fillerAdjust = 1 ∧ alignerWidthConc cw1 spaceAligner ['a'] 3 :=
  ⟨by decide, aligner_width_spec cw1 spaceAligner ['a'] 3 (by decide)⟩

/-! ## Lemmas: Gregorian calendar arithmetic -/

theorem gregLeapBit_le (y : Int) : gregLeapBit y ≤ 1 := by
  unfold gregLeapBit
  split <;> omega

theorem gregYearDays_eq (y : Int) :
    (if gregIsLeap y then 366 else 365) = 365 + gregLeapBit y := by
  unfold gregLeapBit
  split <;> rfl

theorem gregMonthLenT_bounds (lp m : Nat) (hlp : lp ≤ 1) :
    1 ≤ gregMonthLenT lp m ∧ gregMonthLenT lp m ≤ 31 := by
  unfold gregMonthLenT
  split_ifs <;> omega

theorem gregMonthLen_bounds (y : Int) (m : Nat) :
    1 ≤ gregMonthLen y m ∧ gregMonthLen y m ≤ 31 :=
  gregMonthLenT_bounds (gregLeapBit y) m (gregLeapBit_le y)

set_option maxRecDepth 4000 in
theorem gregOrdToMonthT_spec :
    ∀ lp < 2, ∀ ord < 367, 1 ≤ ord → ord ≤ 365 + lp →
      1 ≤ gregOrdToMonthT lp ord ∧ gregOrdToMonthT lp ord ≤ 12 ∧
      gregDaysBeforeMonthT lp (gregOrdToMonthT lp ord) < ord ∧
      ord ≤ gregDaysBeforeMonthT lp (gregOrdToMonthT lp ord) +
        gregMonthLenT lp (gregOrdToMonthT lp ord) := by
  intro lp hlp
  interval_cases lp <;> decide

theorem gregDaysBeforeMonthT_add_len :
    ∀ lp < 2, ∀ m, 1 ≤ m → m ≤ 12 →
      gregDaysBeforeMonthT lp m + gregMonthLenT lp m ≤ 365 + lp := by
  intro lp hlp m h1 h2
  interval_cases lp <;> interval_cases m <;> decide

theorem gregDaysBeforeMonth_add_len (y : Int) (m : Nat) (h1 : 1 ≤ m) (h2 : m ≤ 12) :
    gregDaysBeforeMonth y m + gregMonthLen y m ≤ 365 + gregLeapBit y :=
  gregDaysBeforeMonthT_add_len (gregLeapBit y) (by have := gregLeapBit_le y; omega) m h1 h2

theorem gregOrdToMonth_spec (y : Int) (ord : Nat) (h1 : 1 ≤ ord)
    (h2 : ord ≤ 365 + gregLeapBit y) :
    1 ≤ gregOrdToMonth y ord ∧ gregOrdToMonth y ord ≤ 12 ∧
    gregDaysBeforeMonth y (gregOrdToMonth y ord) < ord ∧
    ord ≤ gregDaysBeforeMonth y (gregOrdToMonth y ord) + gregMonthLen y (gregOrdToMonth y ord) := by
  have hb := gregLeapBit_le y
  exact gregOrdToMonthT_spec (gregLeapBit y) (by omega) ord (by omega) h1 h2

theorem CivilDate.ordinal_le (d : CivilDate) (hd : d.IsValid) :
    1 ≤ d.ordinal ∧ d.ordinal ≤ 365 + gregLeapBit d.year := by
  obtain ⟨_, _, h3, h4, h5, h6⟩ := hd
  have := gregDaysBeforeMonth_add_len d.year d.month h3 h4
  unfold CivilDate.ordinal
  omega

theorem CivilDate.yearEndOrdinal_val (d : CivilDate) :
    d.yearEndOrdinal = 365 + gregLeapBit d.year := by
  unfold CivilDate.yearEndOrdinal gregLeapBit
  split <;> rfl

theorem CivilDate.setSatDay_spec (d : CivilDate) (hd : d.IsValid) (x : Nat) :
    (d.setSatDay x).year = d.year ∧ (d.setSatDay x).month = d.month ∧
    (d.setSatDay x).day = max 1 (min x d.monthEndDay) ∧ (d.setSatDay x).IsValid := by
  obtain ⟨h1, h2, h3, h4, h5, h6⟩ := hd
  have hml := gregMonthLen_bounds d.year d.month
  unfold CivilDate.setSatDay CivilDate.IsValid CivilDate.monthEndDay at *
  refine ⟨rfl, rfl, rfl, ?_⟩
  dsimp only
  omega

theorem CivilDate.setSatMonth_spec (d : CivilDate) (hd : d.IsValid) (m : Nat) :
    (d.setSatMonth m).year = d.year ∧ (d.setSatMonth m).month = max 1 (min m 12) ∧
    (d.setSatMonth m).day = max 1 (min d.day (gregMonthLen d.year (max 1 (min m 12)))) ∧
    (d.setSatMonth m).IsValid := by
  obtain ⟨h1, h2, h3, h4, h5, h6⟩ := hd
  have hml := gregMonthLen_bounds d.year (max 1 (min m 12))
  unfold CivilDate.setSatMonth CivilDate.setSatDay CivilDate.IsValid CivilDate.monthEndDay at *
  dsimp only
  refine ⟨rfl, rfl, rfl, by omega, by omega, by omega, by omega, by omega, by omega⟩

theorem CivilDate.setSatYear_spec (d : CivilDate) (hd : d.IsValid) (x : Int) :
    (d.setSatYear x).year = max (-9999) (min x 9999) ∧ (d.setSatYear x).month = d.month ∧
    (d.setSatYear x).day = max 1 (min d.day (gregMonthLen (max (-9999) (min x 9999)) d.month)) ∧
    (d.setSatYear x).IsValid := by
  obtain ⟨h1, h2, h3, h4, h5, h6⟩ := hd
  have hml := gregMonthLen_bounds (max (-9999) (min x 9999)) d.month
  unfold CivilDate.setSatYear CivilDate.setSatDay CivilDate.IsValid CivilDate.monthEndDay at *
  dsimp only
  refine ⟨rfl, rfl, rfl, by omega, by omega, by omega, by omega, by omega, by omega⟩

theorem CivilDate.setSatOrdinal_fields (d : CivilDate) (hd : d.IsValid) (o : Nat) :
    (d.setSatOrdinal o).year = d.year ∧
    (d.setSatOrdinal o).ordinal = max 1 (min o d.yearEndOrdinal) ∧
    (d.setSatOrdinal o).IsValid := by
  have hval := hd
  obtain ⟨h1, h2, h3, h4, h5, h6⟩ := hd
  have hb := gregLeapBit_le d.year
  have hye := d.yearEndOrdinal_val
  have hcl : 1 ≤ max 1 (min o d.yearEndOrdinal) ∧
      max 1 (min o d.yearEndOrdinal) ≤ 365 + gregLeapBit d.year := by omega
  have hspec := gregOrdToMonth_spec d.year (max 1 (min o d.yearEndOrdinal)) hcl.1 hcl.2
  unfold CivilDate.setSatOrdinal CivilDate.IsValid
  dsimp only
  refine ⟨rfl, ?_, h1, h2, hspec.1, hspec.2.1, by omega, by omega⟩
  unfold CivilDate.ordinal
  dsimp only
  omega

/-! ## Lemmas: Jalali calendar arithmetic -/

theorem jalaliYearLen_bounds (y : Int) : 365 ≤ jalaliYearLen y ∧ jalaliYearLen y ≤ 366 := by
  unfold jalaliYearLen
  split <;> omega

theorem jalaliMonthLen_bounds (y : Int) (m : Nat) :
    1 ≤ jalaliMonthLen y m ∧ jalaliMonthLen y m ≤ 31 := by
  unfold jalaliMonthLen
  split_ifs <;> omega

theorem jalaliMonthLen_le_30 (y : Int) (m : Nat) (h : 7 ≤ m) : jalaliMonthLen y m ≤ 30 := by
  unfold jalaliMonthLen
  split_ifs <;> omega

theorem jalaliDaysBeforeMonth_add_len (y : Int) (m : Nat) (h1 : 1 ≤ m) (h2 : m ≤ 12) :
    jalaliDaysBeforeMonth m + jalaliMonthLen y m ≤ jalaliYearLen y := by
  unfold jalaliDaysBeforeMonth jalaliMonthLen jalaliYearLen
  split_ifs <;> omega

theorem jalaliMonthOfOrd_spec (o L : Nat) (hLa : 365 ≤ L) (hLb : L ≤ 366)
    (h1 : 1 ≤ o) (h2 : o ≤ L) :
    1 ≤ jalaliMonthOfOrd o ∧ jalaliMonthOfOrd o ≤ 12 ∧
    jalaliDaysBeforeMonth (jalaliMonthOfOrd o) < o ∧
    (jalaliMonthOfOrd o ≤ 6 → o ≤ jalaliDaysBeforeMonth (jalaliMonthOfOrd o) + 31) ∧
    (7 ≤ jalaliMonthOfOrd o → jalaliMonthOfOrd o ≤ 11 →
      o ≤ jalaliDaysBeforeMonth (jalaliMonthOfOrd o) + 30) := by
  unfold jalaliMonthOfOrd jalaliDaysBeforeMonth
  split_ifs <;> omega

theorem jalaliMonthOfOrd_compose (m1 d1 : Nat) (hm1 : 1 ≤ m1) (hm2 : m1 ≤ 12) (hd1 : 1 ≤ d1)
    (hd31 : d1 ≤ 31) (hd30 : 7 ≤ m1 → d1 ≤ 30) :
    jalaliMonthOfOrd (jalaliDaysBeforeMonth m1 + d1) = m1 ∧
    jalaliDayOfOrd (jalaliDaysBeforeMonth m1 + d1) = d1 := by
  have hm : jalaliMonthOfOrd (jalaliDaysBeforeMonth m1 + d1) = m1 := by
    unfold jalaliMonthOfOrd jalaliDaysBeforeMonth
    interval_cases m1 <;> (split_ifs <;> omega)
  refine ⟨hm, ?_⟩
  unfold jalaliDayOfOrd
  rw [hm]
  omega

theorem JalaliDate.month_day_spec (j : JalaliDate) (hj : j.IsValid) :
    1 ≤ j.month ∧ j.month ≤ 12 ∧ 1 ≤ j.day ∧ j.day ≤ jalaliMonthLen j.year j.month ∧
    jalaliDaysBeforeMonth j.month + j.day = j.ordinal := by
  obtain ⟨h1, h2⟩ := hj
  have hyl := jalaliYearLen_bounds j.year
  have hs := jalaliMonthOfOrd_spec j.ordinal (jalaliYearLen j.year) hyl.1 hyl.2 h1 h2
  unfold JalaliDate.month JalaliDate.day jalaliDayOfOrd
  by_cases hc : jalaliMonthOfOrd j.ordinal ≤ 6
  · have he : jalaliMonthLen j.year (jalaliMonthOfOrd j.ordinal) = 31 := by
      unfold jalaliMonthLen
      split_ifs <;> omega
    have := hs.2.2.2.1 hc
    omega
  · by_cases hc2 : jalaliMonthOfOrd j.ordinal ≤ 11
    · have he : jalaliMonthLen j.year (jalaliMonthOfOrd j.ordinal) = 30 := by
        unfold jalaliMonthLen
        split_ifs <;> omega
      have := hs.2.2.2.2 (by omega) hc2
      omega
    · have hm : jalaliMonthOfOrd j.ordinal = 12 := by omega
      have he : jalaliMonthLen j.year (jalaliMonthOfOrd j.ordinal) = jalaliMonthLen j.year 12 := by
        rw [hm]
      have hdb : jalaliDaysBeforeMonth (jalaliMonthOfOrd j.ordinal) = 336 := by
        rw [hm]
        decide
      have hlen12 : jalaliMonthLen j.year 12 = jalaliYearLen j.year - 336 := by
        unfold jalaliMonthLen jalaliYearLen
        split_ifs <;> omega
      omega

theorem JalaliDate.fromYmd_spec (y : Int) (m d : Nat) :
    (JalaliDate.fromYmd y m d).year = y ∧
    (JalaliDate.fromYmd y m d).month = max 1 (min m 12) ∧
    (JalaliDate.fromYmd y m d).day =
      max 1 (min d (jalaliMonthLen y (max 1 (min m 12)))) ∧
    (JalaliDate.fromYmd y m d).IsValid := by
  have hml := jalaliMonthLen_bounds y (max 1 (min m 12))
  have hadd := jalaliDaysBeforeMonth_add_len y (max 1 (min m 12)) (by omega) (by omega)
  have hcomp := jalaliMonthOfOrd_compose (max 1 (min m 12))
    (max 1 (min d (jalaliMonthLen y (max 1 (min m 12))))) (by omega) (by omega) (by omega)
    (by omega)
    (fun h7 => by have := jalaliMonthLen_le_30 y (max 1 (min m 12)) h7; omega)
  have hyl := jalaliYearLen_bounds y
  unfold JalaliDate.fromYmd
  dsimp only
  refine ⟨rfl, ?_, ?_, ?_⟩
  · unfold JalaliDate.month
    dsimp only
    exact hcomp.1
  · unfold JalaliDate.day
    dsimp only
    exact hcomp.2
  · unfold JalaliDate.IsValid
    dsimp only
    omega

theorem JalaliDate.fromYearOrdinal_spec (y : Int) (o : Nat) :
    (JalaliDate.fromYearOrdinal y o).year = y ∧
    (JalaliDate.fromYearOrdinal y o).ordinal = max 1 (min o (jalaliYearLen y)) ∧
    (JalaliDate.fromYearOrdinal y o).IsValid := by
  have hyl := jalaliYearLen_bounds y
  unfold JalaliDate.fromYearOrdinal JalaliDate.IsValid
  dsimp only
  refine ⟨rfl, rfl, by omega, by omega⟩

theorem JalaliDate.monthEndDay_eq (j : JalaliDate) (hj : j.IsValid) :
    j.monthEndDay = jalaliMonthLen j.year j.month := by
  have hmd := j.month_day_spec hj
  have hml := jalaliMonthLen_bounds j.year j.month
  have hspec := JalaliDate.fromYmd_spec j.year j.month 31
  unfold JalaliDate.monthEndDay
  rw [hspec.2.2.1]
  have hm : max 1 (min j.month 12) = j.month := by omega
  rw [hm]
  omega

theorem JalaliDate.yearEndOrdinal_eq (j : JalaliDate) :
    j.yearEndOrdinal = jalaliYearLen j.year := by
  have hyl := jalaliYearLen_bounds j.year
  have hspec := JalaliDate.fromYearOrdinal_spec j.year 65535
  unfold JalaliDate.yearEndOrdinal
  rw [hspec.2.1]
  omega

/-! ## Lemmas: Jalali year decomposition and cross-calendar conversion -/

theorem jalaliDaysBefore_mono (a b : Int) (h : a ≤ b) : jalaliDaysBefore a ≤ jalaliDaysBefore b := by
  unfold jalaliDaysBefore
  omega

theorem jalaliDaysBefore_strict (a b : Int) (h : a < b) :
    jalaliDaysBefore a < jalaliDaysBefore b := by
  unfold jalaliDaysBefore
  omega

theorem jalaliDaysBefore_yearLen (y : Int) :
    jalaliDaysBefore y = jalaliDaysBefore (y - 1) + jalaliYearLen y := by
  unfold jalaliDaysBefore jalaliYearLen jalaliIsLeap
  split_ifs with h <;> simp only [decide_eq_true_eq] at h <;> omega

theorem jalaliYearOfDays_sandwich (D : Int) :
    jalaliDaysBefore (jalaliYearOfDays D) ≤ D ∧ D < jalaliDaysBefore (jalaliYearOfDays D + 1) := by
  unfold jalaliYearOfDays jalaliDaysBefore
  split <;> omega

theorem jalaliYearOfDays_eq (D n : Int) (h1 : jalaliDaysBefore n ≤ D)
    (h2 : D < jalaliDaysBefore (n + 1)) : jalaliYearOfDays D = n := by
  have hs := jalaliYearOfDays_sandwich D
  rcases lt_trichotomy (jalaliYearOfDays D) n with h | h | h
  · have : jalaliYearOfDays D + 1 ≤ n := by omega
    have := jalaliDaysBefore_mono _ _ this
    omega
  · exact h
  · have : n + 1 ≤ jalaliYearOfDays D := by omega
    have := jalaliDaysBefore_mono _ _ this
    omega

theorem jalaliOfRd_spec (rd : Int) :
    (jalaliOfRd rd).IsValid ∧ jalaliAbsRd (jalaliOfRd rd) = rd := by
  have hs := jalaliYearOfDays_sandwich (rd - jalaliEpochRd)
  have hyl := jalaliDaysBefore_yearLen (jalaliYearOfDays (rd - jalaliEpochRd) + 1)
  unfold jalaliOfRd jalaliAbsRd JalaliDate.IsValid
  dsimp only
  have heq : jalaliYearOfDays (rd - jalaliEpochRd) + 1 - 1 =
      jalaliYearOfDays (rd - jalaliEpochRd) := by omega
  rw [heq] at hyl ⊢
  omega

theorem jalaliOfRd_absRd (j : JalaliDate) (hj : j.IsValid) : jalaliOfRd (jalaliAbsRd j) = j := by
  obtain ⟨y, o⟩ := j
  obtain ⟨h1, h2⟩ := hj
  dsimp only at h1 h2 ⊢
  have hyl := jalaliDaysBefore_yearLen y
  have hD1 : jalaliDaysBefore (y - 1) ≤ jalaliAbsRd ⟨y, o⟩ - jalaliEpochRd := by
    unfold jalaliAbsRd
    dsimp only
    omega
  have hD2 : jalaliAbsRd ⟨y, o⟩ - jalaliEpochRd < jalaliDaysBefore (y - 1 + 1) := by
    unfold jalaliAbsRd
    dsimp only
    have : y - 1 + 1 = y := by omega
    rw [this]
    omega
  have hyD := jalaliYearOfDays_eq _ _ hD1 hD2
  unfold jalaliOfRd
  dsimp only
  rw [hyD]
  unfold jalaliAbsRd
  dsimp only
  congr 1
  · omega
  · unfold jalaliAbsRd at hD1
    dsimp only at hD1
    omega

theorem jalali_eq_jalaliOfCivil_iff (j : JalaliDate) (g : CivilDate) (hj : j.IsValid) :
    j = jalaliOfCivil g ↔ jalaliAbsRd j = civilAbsRd g := by
  constructor
  · intro h
    rw [h]
    unfold jalaliOfCivil
    exact (jalaliOfRd_spec (civilAbsRd g)).2
  · intro h
    have := jalaliOfRd_absRd j hj
    unfold jalaliOfCivil
    rw [← h, this]

/-! ## Claims C2 and C3 -/

/-- C2: no `CommonDate` mutation can fail — for every valid `Date` of either
calendar and every numeric argument, `set_saturating_day` clamps the day into
`1..=month_end_day`, `set_saturating_month` clamps the month into `1..=12`,
`set_saturating_ordinal` clamps the ordinal into `1..=year_end_ordinal`,
`set_saturating_year` clamps the year to the supported boundary
(`-9999..=9999` for the Gregorian calendar; the modelled Jalali year range is
unbounded, so there its setter stores the year unchanged), and every result
is again a valid day of its own calendar. -/
theorem commonDate_saturating_total (d : Date) (hd : d.IsValid)
    (dayArg monthArg ordArg : Nat) (yearArg : Int) :
    commonDateSaturConc d dayArg monthArg ordArg yearArg := by
  unfold commonDateSaturConc
  cases d with
  | gregorian g =>
    have hg : g.IsValid := hd
    have h1 := g.setSatDay_spec hg dayArg
    have h2 := g.setSatMonth_spec hg monthArg
    have h3 := g.setSatOrdinal_fields hg ordArg
    have h4 := g.setSatYear_spec hg yearArg
    exact ⟨⟨h1.2.2.1, h1.2.2.2⟩, ⟨h2.2.1, h2.2.2.2⟩, ⟨h3.2.1, h3.2.2⟩, ⟨h4.1, h4.2.2.2⟩⟩
  | jalali j =>
    have hj : j.IsValid := hd
    have hmd := j.month_day_spec hj
    have hclm : max 1 (min j.month 12) = j.month := by omega
    have hme := j.monthEndDay_eq hj
    have hye := j.yearEndOrdinal_eq
    simp only [Date.setSatDay, Date.setSatMonth, Date.setSatOrdinal, Date.setSatYear,
      Date.day, Date.month, Date.ordinal, Date.year, Date.monthEndDay, Date.yearEndOrdinal,
      Date.IsValid]
    refine ⟨?_, ?_, ?_, ?_⟩
    · have h1 := JalaliDate.fromYmd_spec j.year j.month dayArg
      rw [hclm] at h1
      have hday : (j.setSatDay dayArg).day =
          max 1 (min dayArg (jalaliMonthLen j.year j.month)) := h1.2.2.1
      exact ⟨by omega, h1.2.2.2⟩
    · have h2 := JalaliDate.fromYmd_spec j.year monthArg j.day
      exact ⟨h2.2.1, h2.2.2.2⟩
    · have h3 := JalaliDate.fromYearOrdinal_spec j.year ordArg
      have hord : (j.setSatOrdinal ordArg).ordinal =
          max 1 (min ordArg (jalaliYearLen j.year)) := h3.2.1
      exact ⟨by omega, h3.2.2⟩
    · have h4 := JalaliDate.fromYearOrdinal_spec yearArg j.ordinal
      exact ⟨h4.1, h4.2.2⟩

/-- Witness for C2: the contract at Gregorian 2025-11-01 with the spec's own
example arguments (day 35, month 0, ordinal 400, year 10000). -/
theorem commonDate_saturating_total_witness :
    (Date.gregorian ⟨2025, 11, 1⟩).IsValid ∧
    commonDateSaturConc (Date.gregorian ⟨2025, 11, 1⟩) 35 0 400 10000 :=
  ⟨by decide, commonDate_saturating_total (Date.gregorian ⟨2025, 11, 1⟩) (by decide) 35 0 400 10000⟩

/-- C3: `Date`'s `PartialEq` compares cross-calendar values by absolute day —
`Date::Gregorian(g) == Date::Jalali(j)` holds, in both argument orders,
exactly when `j` and `g` denote the same Rata Die day, equivalently when `j`
is the Jalali conversion of `g`; two values of the same tag compare equal
exactly when their concrete dates are equal. -/
theorem dateEq_cross_calendar (g : CivilDate) (j : JalaliDate) (hj : j.IsValid) :
    dateCrossEqConc g j := by
  have hiff := jalali_eq_jalaliOfCivil_iff j g hj
  unfold dateCrossEqConc
  refine ⟨?_, ?_, ?_, ?_, ?_⟩
  · show (j == jalaliOfCivil g) = true ↔ _
    rw [beq_iff_eq]
    exact hiff
  · show (j == jalaliOfCivil g) = true ↔ _
    rw [beq_iff_eq]
    exact hiff
  · show (j == jalaliOfCivil g) = true ↔ _
    rw [beq_iff_eq]
  · intro g2
    show (g == g2) = true ↔ _
    rw [beq_iff_eq]
  · intro j2
    show (j == j2) = true ↔ _
    rw [beq_iff_eq]

/-- Witness for C3: the contract at 2025-03-21 Gregorian and Farvardin 1, 1404
(the same absolute day). -/
theorem dateEq_cross_calendar_witness :
    (JalaliDate.mk 1404 1).IsValid ∧ dateCrossEqConc ⟨2025, 3, 21⟩ ⟨1404, 1⟩ :=
  ⟨by decide, dateEq_cross_calendar ⟨2025, 3, 21⟩ ⟨1404, 1⟩ (by decide)⟩

/-! ## Lemmas: list cell access helpers -/

theorem getD_set_self {α : Type} (l : List α) (n : Nat) (a d : α) (h : n < l.length) :
    (l.set n a).getD n d = a := by
  induction l generalizing n with
  | nil => simp at h
  | cons x tl ih =>
    cases n with
    | zero => rfl
    | succ k =>
      simp only [List.set, List.getD, List.length_cons] at *
      exact ih k (by omega)

theorem getD_set_ne {α : Type} (l : List α) (n m : Nat) (a d : α) (h : n ≠ m) :
    (l.set n a).getD m d = l.getD m d := by
  induction l generalizing n m with
  | nil => simp
  | cons x tl ih =>
    cases n with
    | zero =>
      cases m with
      | zero => omega
      | succ k => rfl
    | succ k =>
      cases m with
      | zero => rfl
      | succ k2 =>
        simp only [List.set, List.getD]
        exact ih k k2 (by omega)

theorem getD_map {α β : Type} (f : α → β) (l : List α) (n : Nat) (d : β) (d2 : α)
    (h : n < l.length) : (l.map f).getD n d = f (l.getD n d2) := by
  induction l generalizing n with
  | nil => simp at h
  | cons x tl ih =>
    cases n with
    | zero => rfl
    | succ k =>
      simp only [List.map, List.getD, List.length_cons] at *
      exact ih k (by omega)

theorem getD_replicate {α : Type} (k n : Nat) (x d : α) (h : n < k) :
    (List.replicate k x).getD n d = x := by
  induction k generalizing n with
  | zero => omega
  | succ k2 ih =>
    cases n with
    | zero => rfl
    | succ m =>
      simp only [List.replicate, List.getD]
      exact ih m (by omega)

/-! ## Lemmas: the grid fill loop -/

theorem setCell_length (cells : List (List Nat)) (row col v : Nat) :
    (setCell cells row col v).length = cells.length := by
  unfold setCell
  simp

theorem setCell_rowLength (cells : List (List Nat)) (row col v r : Nat) :
    ((setCell cells row col v).getD r []).length = (cells.getD r []).length := by
  unfold setCell
  by_cases h : row = r
  · subst h
    by_cases hlt : row < cells.length
    · rw [getD_set_self _ _ _ _ hlt]
      simp
    · rw [List.set_eq_of_length_le (by omega)]
  · rw [getD_set_ne _ _ _ _ _ h]

theorem setCell_cellAt (cells : List (List Nat)) (row col v r c : Nat)
    (hrow : row < cells.length) (hcol : col < (cells.getD row []).length) :
    cellAt (setCell cells row col v) r c =
      if r = row ∧ c = col then v else cellAt cells r c := by
  unfold setCell cellAt
  by_cases hr : r = row
  · subst hr
    rw [getD_set_self _ _ _ _ hrow]
    by_cases hc : c = col
    · subst hc
      rw [getD_set_self _ _ _ _ hcol]
      simp
    · rw [getD_set_ne _ _ _ _ _ (fun hx => hc hx.symm)]
      simp [hc]
  · rw [getD_set_ne _ _ _ _ _ (fun hx => hr hx.symm)]
    simp [hr]

theorem gridFill_length (count : Nat) :
    ∀ (cells : List (List Nat)) (row i v off : Nat),
      (gridFill count cells row i v off).length = cells.length := by
  induction count with
  | zero => intro cells row i v off; rfl
  | succ k ih =>
    intro cells row i v off
    unfold gridFill
    split
    · rw [ih, setCell_length]
    · rw [ih, setCell_length]

theorem gridFill_rowLength (count : Nat) :
    ∀ (cells : List (List Nat)) (row i v off r : Nat),
      ((gridFill count cells row i v off).getD r []).length = ((cells.getD r []).length) := by
  induction count with
  | zero => intro cells row i v off r; rfl
  | succ k ih =>
    intro cells row i v off r
    unfold gridFill
    split
    · rw [ih, setCell_rowLength]
    · rw [ih, setCell_rowLength]

theorem gridFill_cellAt (count : Nat) :
    ∀ (cells : List (List Nat)) (row i v off : Nat),
      cells.length = 6 → (∀ rr, rr < 6 → ((cells.getD rr []).length = 7)) →
      i < 7 → 7 * row + i + count ≤ 42 →
      ∀ r, r < 6 → ∀ c, c < 7 →
        cellAt (gridFill count cells row i v off) r c =
          if 7 * row + i ≤ 7 * r + c ∧ 7 * r + c < 7 * row + i + count
          then v + (7 * r + c - (7 * row + i)) + off
          else cellAt cells r c := by
  induction count with
  | zero =>
    intro cells row i v off hlen hrow hi hb r hr c hc
    simp only [gridFill]
    have : ¬ (7 * row + i ≤ 7 * r + c ∧ 7 * r + c < 7 * row + i + 0) := by omega
    rw [if_neg this]
  | succ k ih =>
    intro cells row i v off hlen hrow hi hb r hr c hc
    have hrowlt : row < cells.length := by omega
    have hcol : i < (cells.getD row []).length := by rw [hrow row (by omega)]; omega
    have hset := setCell_cellAt cells row i (v + off) r c hrowlt hcol
    have hlen2 : (setCell cells row i (v + off)).length = 6 := by rw [setCell_length]; omega
    have hrow2 : ∀ rr, rr < 6 → (((setCell cells row i (v + off)).getD rr []).length = 7) := by
      intro rr hrr
      rw [setCell_rowLength]
      exact hrow rr hrr
    unfold gridFill
    split
    · rename_i hieq
      subst hieq
      have := ih (setCell cells row 6 (v + off)) (row + 1) 0 (v + 1) off hlen2 hrow2
        (by omega) (by omega) r hr c hc
      rw [this, hset]
      by_cases hq : 7 * row + 6 ≤ 7 * r + c ∧ 7 * r + c < 7 * row + 6 + (k + 1)
      · rw [if_pos hq]
        by_cases hq2 : 7 * (row + 1) + 0 ≤ 7 * r + c ∧ 7 * r + c < 7 * (row + 1) + 0 + k
        · rw [if_pos hq2]
          omega
        · rw [if_neg hq2]
          have hreq : r = row ∧ c = 6 := by
            constructor <;> omega
          rw [if_pos hreq]
          omega
      · rw [if_neg hq]
        have hq2 : ¬ (7 * (row + 1) + 0 ≤ 7 * r + c ∧ 7 * r + c < 7 * (row + 1) + 0 + k) := by
          omega
        rw [if_neg hq2]
        have hne : ¬ (r = row ∧ c = 6) := by
          intro ⟨ha, hb2⟩
          omega
        rw [if_neg hne]
    · rename_i hine
      have := ih (setCell cells row i (v + off)) row (i + 1) (v + 1) off hlen2 hrow2
        (by omega) (by omega) r hr c hc
      rw [this, hset]
      by_cases hq : 7 * row + i ≤ 7 * r + c ∧ 7 * r + c < 7 * row + i + (k + 1)
      · rw [if_pos hq]
        by_cases hq2 : 7 * row + (i + 1) ≤ 7 * r + c ∧ 7 * r + c < 7 * row + (i + 1) + k
        · rw [if_pos hq2]
          omega
        · rw [if_neg hq2]
          have hreq : r = row ∧ c = i := by
            constructor <;> omega
          rw [if_pos hreq]
          omega
      · rw [if_neg hq]
        have hq2 : ¬ (7 * row + (i + 1) ≤ 7 * r + c ∧ 7 * r + c < 7 * row + (i + 1) + k) := by
          omega
        rw [if_neg hq2]
        have hne : ¬ (r = row ∧ c = i) := by
          intro ⟨ha, hb2⟩
          omega
        rw [if_neg hne]

/-! ## Lemmas: digit strings and space alignment -/

theorem natCharsAux_digit (fuel : Nat) :
    ∀ n c, c ∈ natCharsAux fuel n → ∃ d, d ≤ 9 ∧ c = Char.ofNat (48 + d) := by
  induction fuel with
  | zero => intro n c hc; simp [natCharsAux] at hc
  | succ k ih =>
    intro n c hc
    unfold natCharsAux at hc
    split at hc
    · rename_i hn
      simp only [List.mem_singleton] at hc
      exact ⟨n, by omega, hc⟩
    · rename_i hn
      rw [List.mem_append] at hc
      rcases hc with hc | hc
      · exact ih (n / 10) c hc
      · simp only [List.mem_singleton] at hc
        exact ⟨n % 10, by omega, hc⟩

theorem natChars_digit (n : Nat) (c : Char) (hc : c ∈ natChars n) :
    ∃ d, d ≤ 9 ∧ c = Char.ofNat (48 + d) :=
  natCharsAux_digit (n + 1) n c hc

theorem digit_not_space (d : Nat) (hd : d ≤ 9) :
    Char.ofNat (48 + d) ≠ ' ' ∧ rustIsWhitespace (Char.ofNat (48 + d)) = false := by
  interval_cases d <;> exact ⟨by decide, by decide⟩

theorem natChars_ne_nil (n : Nat) : natChars n ≠ [] := by
  unfold natChars natCharsAux
  split
  · simp
  · simp

theorem natCharsAux_length (fuel : Nat) :
    ∀ n, n < fuel →
      (n < 10 → (natCharsAux fuel n).length = 1) ∧
      (n < 100 → (natCharsAux fuel n).length ≤ 2) ∧
      (n < 1000 → (natCharsAux fuel n).length ≤ 3) := by
  induction fuel with
  | zero => intro n hn; omega
  | succ k ih =>
    intro n hn
    unfold natCharsAux
    split
    · rename_i h10
      simp
    · rename_i h10
      have hdiv : n / 10 < k := by omega
      have := ih (n / 10) hdiv
      simp only [List.length_append, List.length_singleton]
      refine ⟨by omega, ?_, ?_⟩
      · intro h100
        have := this.1 (by omega)
        omega
      · intro h1000
        have := this.2.1 (by omega)
        omega

theorem natChars_length_le_two (n : Nat) (h : n < 100) : (natChars n).length ≤ 2 :=
  (natCharsAux_length (n + 1) n (by omega)).2.1 h

theorem natChars_length_le_three (n : Nat) (h : n < 1000) : (natChars n).length ≤ 3 :=
  (natCharsAux_length (n + 1) n (by omega)).2.2 h

theorem cw1_width (s : List Char) : ansiWidthW cw1 s = s.length := by
  induction s with
  | nil => rfl
  | cons c tl ih => simp [ansiWidthW, cw1] at *; omega

theorem flatten_replicate_singleton (m : Nat) (c : Char) :
    List.flatten (List.replicate m [c]) = List.replicate m c := by
  induction m with
  | zero => rfl
  | succ k ih => simp [List.replicate_succ, ih]

theorem spaceAligner_fillerFor (n : Nat) :
    spaceAligner.fillerFor cw1 n = List.replicate n ' ' := by
  have hr : repeatForAnsiWidth cw1 [' '] n = List.replicate n ' ' := by
    unfold repeatForAnsiWidth
    rw [if_neg (by simp [ansiWidthW, cw1])]
    rw [flatten_replicate_singleton]
    rw [takeWidth_all_one_take cw1 n (List.replicate (n + 1) ' ') 0
      (fun c hc => by simp [cw1]) (by omega)]
    simp [List.take_replicate]
  unfold Aligner.fillerFor
  have hf : spaceAligner.filler = [' '] := rfl
  have ha : spaceAligner.fillerAdjust = ' ' := rfl
  rw [hf, ha, hr]
  dsimp only
  rw [cw1_width, List.length_replicate]
  simp

theorem spaceAlignRight_eq (s : List Char) (w : Nat) (h : s.length ≤ w) :
    spaceAligner.right cw1 s w = List.replicate (w - s.length) ' ' ++ s := by
  unfold Aligner.right
  rw [cw1_width]
  by_cases hlt : s.length < w
  · rw [if_pos hlt, spaceAligner_fillerFor]
  · have heq : s.length = w := by omega
    rw [if_neg hlt, if_pos heq, heq]
    simp

theorem spaceAlignRight_length (s : List Char) (w : Nat) (h : s.length ≤ w) :
    (spaceAligner.right cw1 s w).length = w := by
  rw [spaceAlignRight_eq s w h]
  simp
  omega

theorem spaceAlignRight_nil (w : Nat) :
    spaceAligner.right cw1 [] w = List.replicate w ' ' := by
  rw [spaceAlignRight_eq [] w (by simp)]
  simp

theorem nonblank_ne_blank (v w : Nat) (hv : 1 ≤ v) (hl : (natChars v).length ≤ w) :
    spaceAligner.right cw1 (natChars v) w ≠ List.replicate w ' ' ∧
    highlightL (spaceAligner.right cw1 (natChars v) w) ≠ List.replicate w ' ' := by
  constructor
  · rw [spaceAlignRight_eq _ _ hl]
    intro hcon
    obtain ⟨c, hc⟩ := List.exists_mem_of_ne_nil (natChars v) (natChars_ne_nil v)
    have hmem : c ∈ List.replicate (w - (natChars v).length) ' ' ++ natChars v := by
      rw [List.mem_append]
      exact Or.inr hc
    rw [hcon] at hmem
    have hsp := List.eq_of_mem_replicate hmem
    obtain ⟨d, hd, hcd⟩ := natChars_digit v c hc
    exact (digit_not_space d hd).1 (hcd ▸ hsp)
  · intro hcon
    have hlen := congrArg List.length hcon
    rw [List.length_replicate] at hlen
    unfold highlightL at hlen
    simp only [List.length_append, List.length_cons] at hlen
    rw [spaceAlignRight_length _ _ hl] at hlen
    omega

theorem trimStartIsEmpty_replicate (w : Nat) :
    trimStartIsEmpty (List.replicate w ' ') = true := by
  unfold trimStartIsEmpty
  induction w with
  | zero => rfl
  | succ k ih =>
    rw [List.replicate_succ, List.dropWhile_cons]
    simp only [show rustIsWhitespace ' ' = true from rfl]
    exact ih

theorem dropWhile_replicate_append (p : Char → Bool) (n : Nat) (a : Char) (l : List Char)
    (hp : p a = true) :
    List.dropWhile p (List.replicate n a ++ l) = List.dropWhile p l := by
  induction n with
  | zero => rfl
  | succ k ih =>
    rw [List.replicate_succ, List.cons_append, List.dropWhile_cons]
    simp only [hp, if_true]
    exact ih

theorem trimStartIsEmpty_nonblank (v w : Nat) (hv : 1 ≤ v) (hl : (natChars v).length ≤ w) :
    trimStartIsEmpty (spaceAligner.right cw1 (natChars v) w) = false ∧
    trimStartIsEmpty (highlightL (spaceAligner.right cw1 (natChars v) w)) = false := by
  constructor
  · rw [spaceAlignRight_eq _ _ hl]
    unfold trimStartIsEmpty
    rw [dropWhile_replicate_append _ _ _ _ (by rfl)]
    obtain ⟨c, hc⟩ := List.exists_mem_of_ne_nil (natChars v) (natChars_ne_nil v)
    cases hnc : natChars v with
    | nil => exact absurd hnc (natChars_ne_nil v)
    | cons c0 tl =>
      rw [List.dropWhile_cons]
      obtain ⟨d, hd, hcd⟩ := natChars_digit v c0 (by rw [hnc]; simp)
      rw [hcd, (digit_not_space d hd).2]
      simp
  · unfold trimStartIsEmpty highlightL
    simp only [List.cons_append, List.nil_append, List.dropWhile_cons]
    rw [show rustIsWhitespace (Char.ofNat 27) = false from by decide]
    simp

/-! ## Lemmas: Date-level bounds and the claim C1 -/

theorem Weekday.tillNext_le (a b : Weekday) : a.tillNext b ≤ 6 := by
  unfold Weekday.tillNext
  have := Nat.mod_lt (7 + b.val - a.val) (show 0 < 7 by omega)
  omega

theorem Date.monthEndDay_bounds (d : Date) (hd : d.IsValid) :
    1 ≤ d.monthEndDay ∧ d.monthEndDay ≤ 31 := by
  cases d with
  | gregorian g =>
    exact gregMonthLen_bounds g.year g.month
  | jalali j =>
    show 1 ≤ j.monthEndDay ∧ j.monthEndDay ≤ 31
    rw [j.monthEndDay_eq hd]
    exact jalaliMonthLen_bounds j.year j.month

theorem Date.startMonth_ordinal_bound (d : Date) (hd : d.IsValid) :
    1 ≤ (d.setSatDay 1).ordinal ∧ d.monthEndDay + (d.setSatDay 1).ordinal ≤ 367 := by
  cases d with
  | gregorian g =>
    have hg : g.IsValid := hd
    obtain ⟨h1, h2, h3, h4, h5, h6⟩ := hg
    have hml := gregMonthLen_bounds g.year g.month
    have hadd := gregDaysBeforeMonth_add_len g.year g.month h3 h4
    have hlp := gregLeapBit_le g.year
    have hday : (g.setSatDay 1).day = 1 := by
      unfold CivilDate.setSatDay CivilDate.monthEndDay
      dsimp only
      omega
    show 1 ≤ (g.setSatDay 1).ordinal ∧ g.monthEndDay + (g.setSatDay 1).ordinal ≤ 367
    have hord : (g.setSatDay 1).ordinal = gregDaysBeforeMonth g.year g.month + 1 := by
      unfold CivilDate.ordinal
      rw [hday]
      unfold CivilDate.setSatDay
      dsimp only
    unfold CivilDate.monthEndDay
    omega
  | jalali j =>
    have hj : j.IsValid := hd
    have hmd := j.month_day_spec hj
    have hml := jalaliMonthLen_bounds j.year j.month
    have hadd := jalaliDaysBeforeMonth_add_len j.year j.month (by omega) (by omega)
    have hyl := jalaliYearLen_bounds j.year
    have hclm : max 1 (min j.month 12) = j.month := by omega
    show 1 ≤ (j.setSatDay 1).ordinal ∧ j.monthEndDay + (j.setSatDay 1).ordinal ≤ 367
    rw [j.monthEndDay_eq hj]
    have hord : (j.setSatDay 1).ordinal =
        jalaliDaysBeforeMonth j.month + max 1 (min 1 (jalaliMonthLen j.year j.month)) := by
      unfold JalaliDate.setSatDay JalaliDate.fromYmd
      dsimp only
      rw [hclm]
    omega

theorem grid_format_cells (g : Grid)
    (hlen : g.newGrid.length = 6) (hrow : ∀ r, r < 6 → ((g.newGrid.getD r []).length = 7))
    (hbound : ∀ r, r < 6 → ∀ c, c < 7 →
      cellAt g.newGrid r c ≤ (if g.ordinalMode then 999 else 99)) :
    ∀ hday : Option Date,
      (g.format hday).length = 6 ∧
      (∀ r, r < 6 → (((g.format hday).getD r []).length = 7)) ∧
      (∀ r, r < 6 → ∀ c, c < 7 →
        (scellAt (g.format hday) r c = g.formatInDayCell [] ↔ cellAt g.newGrid r c = 0)) := by
  intro hday
  have hwidth : g.dayCellWidth = (if g.ordinalMode then 3 else 2) := rfl
  refine ⟨?_, ?_, ?_⟩
  · unfold Grid.format
    rw [List.length_map, hlen]
  · intro r hr
    unfold Grid.format
    rw [getD_map _ _ _ _ [] (by omega)]
    rw [List.length_map]
    exact hrow r hr
  · intro r hr c hc
    unfold Grid.format scellAt
    rw [getD_map _ _ _ _ [] (by omega)]
    rw [getD_map _ _ _ _ 0 (by rw [hrow r hr]; omega)]
    show (if cellAt g.newGrid r c = 0 then g.formatInDayCell [] else _) = _ ↔ _
    by_cases hv : cellAt g.newGrid r c = 0
    · rw [if_pos hv]
      simp [hv]
    · rw [if_neg hv]
      have hval := hbound r hr c hc
      have hne : (natChars (cellAt g.newGrid r c)).length ≤ g.dayCellWidth := by
        rw [hwidth]
        by_cases hom : g.ordinalMode
        · rw [if_pos hom] at *
          exact natChars_length_le_three _ (by omega)
        · rw [if_neg hom] at *
          exact natChars_length_le_two _ (by omega)
      have hblank : g.formatInDayCell [] = List.replicate g.dayCellWidth ' ' := by
        unfold Grid.formatInDayCell
        exact spaceAlignRight_nil g.dayCellWidth
      have hnb := nonblank_ne_blank (cellAt g.newGrid r c) g.dayCellWidth (by omega) hne
      constructor
      · intro hcon
        exfalso
        rw [hblank] at hcon
        split at hcon
        · exact hnb.2 (by unfold Grid.formatInDayCell at hcon; exact hcon)
        · exact hnb.1 (by unfold Grid.formatInDayCell at hcon; exact hcon)
      · intro hcon
        exact absurd hcon hv

/-- The 6×7 placement contract of `Grid::new_grid` and `Grid::format`, proved
for every valid date of either calendar, every base weekday and either ordinal
mode. -/
theorem grid_spec_aux (d : Date) (om : Bool) (b : Weekday) (hd : d.IsValid) :
    gridConc d om b := by
  have hme := d.monthEndDay_bounds hd
  have hso := d.startMonth_ordinal_bound hd
  have hfi := Weekday.tillNext_le b (d.setSatDay 1).weekday
  have hng : (Grid.mk d om b).newGrid =
      gridFill d.monthEndDay (List.replicate 6 (List.replicate 7 0)) 0
        (b.tillNext (d.setSatDay 1).weekday) 1
        (if om then (d.setSatDay 1).ordinal - 1 else 0) := by
    unfold Grid.newGrid
    dsimp only
  have hlen : (Grid.mk d om b).newGrid.length = 6 := by
    rw [hng, gridFill_length]
    simp
  have hrow : ∀ r, r < 6 → (((Grid.mk d om b).newGrid.getD r []).length = 7) := by
    intro r hr
    rw [hng, gridFill_rowLength]
    rw [getD_replicate 6 r _ _ hr]
    simp
  have hcell : ∀ r, r < 6 → ∀ c, c < 7 →
      cellAt ((Grid.mk d om b).newGrid) r c =
        (if b.tillNext (d.setSatDay 1).weekday ≤ 7 * r + c ∧
            7 * r + c < b.tillNext (d.setSatDay 1).weekday + d.monthEndDay
         then (7 * r + c - b.tillNext (d.setSatDay 1).weekday + 1) +
           (if om then (d.setSatDay 1).ordinal - 1 else 0)
         else 0) := by
    intro r hr c hc
    rw [hng]
    rw [gridFill_cellAt d.monthEndDay (List.replicate 6 (List.replicate 7 0)) 0
      (b.tillNext (d.setSatDay 1).weekday) 1
      (if om then (d.setSatDay 1).ordinal - 1 else 0)
      (by simp) (fun rr hrr => by rw [getD_replicate 6 rr _ _ hrr]; simp)
      (by omega) (by omega) r hr c hc]
    have hz : cellAt (List.replicate 6 (List.replicate 7 0)) r c = 0 := by
      unfold cellAt
      rw [getD_replicate 6 r _ _ hr, getD_replicate 7 c _ _ hc]
    rw [hz]
    by_cases hq : b.tillNext (d.setSatDay 1).weekday ≤ 7 * r + c ∧
        7 * r + c < b.tillNext (d.setSatDay 1).weekday + d.monthEndDay
    · have hq0 : 7 * 0 + b.tillNext (d.setSatDay 1).weekday ≤ 7 * r + c ∧
          7 * r + c < 7 * 0 + b.tillNext (d.setSatDay 1).weekday + d.monthEndDay := by
        omega
      rw [if_pos hq0, if_pos hq]
      omega
    · have hq0 : ¬ (7 * 0 + b.tillNext (d.setSatDay 1).weekday ≤ 7 * r + c ∧
          7 * r + c < 7 * 0 + b.tillNext (d.setSatDay 1).weekday + d.monthEndDay) := by
        omega
      rw [if_neg hq0, if_neg hq]
  have hbound : ∀ r, r < 6 → ∀ c, c < 7 →
      cellAt ((Grid.mk d om b).newGrid) r c ≤ (if (Grid.mk d om b).ordinalMode then 999 else 99) := by
    intro r hr c hc
    rw [hcell r hr c hc]
    show _ ≤ (if om then 999 else 99)
    by_cases hom : om <;> (simp only [hom, if_true, if_false]; split_ifs <;> omega)
  have hfmt := grid_format_cells (Grid.mk d om b) hlen hrow hbound
  unfold gridConc
  refine ⟨hlen, hrow, hfi, hme.1, hme.2, hcell, ?_, hfmt⟩
  intro r hr c hc
  rw [hcell r hr c hc]
  split_ifs with hq <;> constructor <;> intro hcon <;> first | omega | exact hcon.elim

/-- C1: for every valid date of either calendar, every base weekday and either
ordinal mode, `Grid::new_grid` and `Grid::format` satisfy the 6×7 placement
contract `gridConc`. -/
theorem grid_newGrid_format_spec (d : Date) (om : Bool) (b : Weekday) (hd : d.IsValid) :
    gridConc d om b :=
  grid_spec_aux d om b hd

/-- Witness for C1: the contract at Gregorian November 2025 in ordinal mode
with a Sunday base. -/
theorem grid_newGrid_format_spec_witness :
    (Date.gregorian ⟨2025, 11, 1⟩).IsValid ∧
    gridConc (Date.gregorian ⟨2025, 11, 1⟩) true Weekday.sun :=
  ⟨by decide, grid_newGrid_format_spec (Date.gregorian ⟨2025, 11, 1⟩) true Weekday.sun (by decide)⟩

/-! ## Lemmas: Date-level dispatch facts -/

theorem Date.setSatOrdinal_spec (d : Date) (hd : d.IsValid) (o : Nat) :
    (d.setSatOrdinal o).year = d.year ∧
    (d.setSatOrdinal o).ordinal = max 1 (min o d.yearEndOrdinal) ∧
    (d.setSatOrdinal o).IsValid := by
  cases d with
  | gregorian g =>
    exact g.setSatOrdinal_fields hd o
  | jalali j =>
    have h := JalaliDate.fromYearOrdinal_spec j.year o
    have hye := j.yearEndOrdinal_eq
    show (j.setSatOrdinal o).year = j.year ∧
      (j.setSatOrdinal o).ordinal = max 1 (min o j.yearEndOrdinal) ∧ (j.setSatOrdinal o).IsValid
    have hord : (j.setSatOrdinal o).ordinal = max 1 (min o (jalaliYearLen j.year)) := h.2.1
    exact ⟨h.1, by omega, h.2.2⟩

theorem Date.setSatYear_valid (d : Date) (hd : d.IsValid) (y : Int) :
    (d.setSatYear y).IsValid := by
  cases d with
  | gregorian g => exact (g.setSatYear_spec hd y).2.2.2
  | jalali j => exact (JalaliDate.fromYearOrdinal_spec y j.ordinal).2.2

theorem Date.setSatDay_valid (d : Date) (hd : d.IsValid) (x : Nat) :
    (d.setSatDay x).IsValid := by
  cases d with
  | gregorian g => exact (g.setSatDay_spec hd x).2.2.2
  | jalali j => exact (JalaliDate.fromYmd_spec j.year j.month x).2.2.2

theorem Date.ordinal_bounds (d : Date) (hd : d.IsValid) :
    1 ≤ d.ordinal ∧ d.ordinal ≤ 366 := by
  cases d with
  | gregorian g =>
    have := g.ordinal_le hd
    have := gregLeapBit_le g.year
    show 1 ≤ g.ordinal ∧ g.ordinal ≤ 366
    omega
  | jalali j =>
    have hj : j.IsValid := hd
    have := jalaliYearLen_bounds j.year
    obtain ⟨h1, h2⟩ := hj
    show 1 ≤ j.ordinal ∧ j.ordinal ≤ 366
    exact ⟨h1, by omega⟩

theorem Date.yearEndOrdinal_bounds (d : Date) :
    365 ≤ d.yearEndOrdinal ∧ d.yearEndOrdinal ≤ 366 := by
  cases d with
  | gregorian g =>
    have := g.yearEndOrdinal_val
    have := gregLeapBit_le g.year
    show 365 ≤ g.yearEndOrdinal ∧ g.yearEndOrdinal ≤ 366
    omega
  | jalali j =>
    have := j.yearEndOrdinal_eq
    have := jalaliYearLen_bounds j.year
    show 365 ≤ j.yearEndOrdinal ∧ j.yearEndOrdinal ≤ 366
    omega

theorem Date.setSatDay_year (d : Date) (x : Nat) : (d.setSatDay x).year = d.year := by
  cases d with
  | gregorian g => rfl
  | jalali j => rfl

theorem Date.setSatMonth_year (d : Date) (m : Nat) : (d.setSatMonth m).year = d.year := by
  cases d with
  | gregorian g => rfl
  | jalali j => rfl

theorem Date.month_bounds (d : Date) (hd : d.IsValid) : 1 ≤ d.month ∧ d.month ≤ 12 := by
  cases d with
  | gregorian g =>
    obtain ⟨_, _, h3, h4, _, _⟩ := hd
    exact ⟨h3, h4⟩
  | jalali j =>
    have := j.month_day_spec hd
    exact ⟨this.1, this.2.1⟩

/-! ## Claims C5 and C8 -/

/-- Counterexample to C5 as stated: on Gregorian 2025-11-01 (a Saturday) with a
Sunday base and week index 1, the code sets the ordinal to 13 (using the
forward distance from the base to the date's current weekday), while the
offset computed from the weekday of ordinal 1, as the claim describes, gives
ordinal 10; the result is a Monday in week 2, not the first day of week 1. -/
theorem setSatWeeknum_counterexample :
    ((Date.gregorian ⟨2025, 11, 1⟩).setSatWeeknum 1 Weekday.sun).ordinal = 13 ∧
    (specSetSatWeeknum (Date.gregorian ⟨2025, 11, 1⟩) 1 Weekday.sun).ordinal = 10 ∧
    (Date.gregorian ⟨2025, 11, 1⟩).setSatWeeknum 1 Weekday.sun ≠
      specSetSatWeeknum (Date.gregorian ⟨2025, 11, 1⟩) 1 Weekday.sun ∧
    ((Date.gregorian ⟨2025, 11, 1⟩).setSatWeeknum 1 Weekday.sun).weeknum Weekday.sun = 2 ∧
    ((Date.gregorian ⟨2025, 11, 1⟩).setSatWeeknum 1 Weekday.sun).weekday ≠ Weekday.sun := by
  decide

/-- C5 (amended): `set_saturating_weeknum` clamps the week index to 0..=53 and
saturates the ordinal assignment, but the offset it adds to `7 * weeks` is the
forward distance from the base weekday to the date's *current* weekday. -/
theorem setSatWeeknum_spec (d : Date) (hd : d.IsValid) (weeks : Nat) (base : Weekday) :
    setSatWeeknumConc d weeks base := by
  unfold setSatWeeknumConc Date.setSatWeeknum
  exact Date.setSatOrdinal_spec d hd (min weeks 53 * 7 + base.tillNext d.weekday)

/-- Witness for C5 (amended). -/
theorem setSatWeeknum_spec_witness :
    (Date.gregorian ⟨2025, 11, 1⟩).IsValid ∧
    setSatWeeknumConc (Date.gregorian ⟨2025, 11, 1⟩) 60 Weekday.mon :=
  ⟨by decide, setSatWeeknum_spec (Date.gregorian ⟨2025, 11, 1⟩) (by decide) 60 Weekday.mon⟩

/-- Counterexample to C8 as stated: a single requested month (N = 1) starting
at Gregorian 2025-12-01 spans only December 2025 — entirely within one
calendar year — yet `Layout::print` forces year numbers into the headers. -/
theorem printForcesYear_counterexample :
    printForcesYearHeader (Date.gregorian ⟨2025, 12, 1⟩) 1 = true ∧
    (Date.gregorian ⟨2025, 12, 1⟩).year = 2025 ∧
    (addMonthsYm 2025 12 (1 - 1)).1 = 2025 := by
  decide

/-- C8 (amended): for a valid start date whose advanced year stays within the
supported range, `Layout::print` forces year headers exactly when
`month + N ≥ 13`, i.e. when the month span crosses a year boundary or ends
exactly at the year's final month. -/
theorem printForcesYear_spec (d : Date) (hd : d.IsValid) (n : Nat) (hn1 : 1 ≤ n)
    (hn2 : n ≤ 2147483647)
    (hy : d.year + (((d.month : Int) - 1 + n) / 12) ≤ 9999) : forcesYearConc d n := by
  have hm := d.month_bounds hd
  have hmin : min n 2147483647 = n := by omega
  have hq0 : 0 ≤ ((d.month : Int) - 1 + n) / 12 := by
    have : (0 : Int) ≤ (d.month : Int) - 1 + n := by omega
    omega
  have hp1 : (addMonthsYm d.year d.month ((n : Nat) : Int)).1 =
      d.year + ((d.month : Int) - 1 + n) / 12 := by
    unfold addMonthsYm
    dsimp only
    omega
  have hyear : ∀ dd : Date, (dd.setSatMonth (addMonthsYm d.year d.month ((n : Nat) : Int)).2
      |>.setSatDay 1).year = dd.year := by
    intro dd
    rw [Date.setSatDay_year, Date.setSatMonth_year]
  unfold forcesYearConc printForcesYearHeader Date.setSatMonthsOffset
  dsimp only
  rw [hmin, hyear]
  have hsy : (d.setSatYear (addMonthsYm d.year d.month ((n : Nat) : Int)).1).year =
      d.year + ((d.month : Int) - 1 + n) / 12 := by
    clear hyear hq0
    cases d with
    | gregorian g =>
      have hgv : g.IsValid := hd
      have hmg : 1 ≤ g.month ∧ g.month ≤ 12 := hm
      have hyg : g.year + (((g.month : Int) - 1 + n) / 12) ≤ 9999 := hy
      have hglow : -9999 ≤ g.year := hgv.1
      clear hp1 hm hy
      have hq0g : (0 : Int) ≤ ((g.month : Int) - 1 + n) / 12 := by
        have : (0 : Int) ≤ (g.month : Int) - 1 + n := by omega
        omega
      have hp1g : (addMonthsYm g.year g.month ((n : Nat) : Int)).1 =
          g.year + ((g.month : Int) - 1 + n) / 12 := by
        unfold addMonthsYm
        dsimp only
        omega
      have hsp := (g.setSatYear_spec hgv (addMonthsYm g.year g.month ((n : Nat) : Int)).1).1
      show (g.setSatYear (addMonthsYm g.year g.month ((n : Nat) : Int)).1).year =
        g.year + ((g.month : Int) - 1 + n) / 12
      rw [hsp, hp1g]
      omega
    | jalali j =>
      clear hp1 hm hy
      have hp1j : (addMonthsYm j.year j.month ((n : Nat) : Int)).1 =
          j.year + ((j.month : Int) - 1 + n) / 12 := by
        unfold addMonthsYm
        dsimp only
        omega
      show (JalaliDate.fromYearOrdinal (addMonthsYm j.year j.month ((n : Nat) : Int)).1
        j.ordinal).year = j.year + ((j.month : Int) - 1 + n) / 12
      rw [(JalaliDate.fromYearOrdinal_spec _ _).1]
      exact hp1j
  rw [hsy]
  by_cases hc : 13 ≤ d.month + n
  · have hne : d.year ≠ d.year + ((d.month : Int) - 1 + n) / 12 := by
      have : (1 : Int) ≤ ((d.month : Int) - 1 + n) / 12 := by omega
      omega
    simp [hne, hc]
  · have heq : d.year = d.year + ((d.month : Int) - 1 + n) / 12 := by
      have : ((d.month : Int) - 1 + n) / 12 = 0 := by omega
      omega
    rw [← heq]
    simp [hc]

/-- Witness for C8 (amended): eleven months from January 2025 stay within the
year; the rule gives `false`. -/
theorem printForcesYear_spec_witness :
    ((Date.gregorian ⟨2025, 1, 1⟩).IsValid ∧ 1 ≤ 11 ∧ 11 ≤ 2147483647 ∧
      (Date.gregorian ⟨2025, 1, 1⟩).year +
        ((((Date.gregorian ⟨2025, 1, 1⟩).month : Int) - 1 + 11) / 12) ≤ 9999) ∧
    forcesYearConc (Date.gregorian ⟨2025, 1, 1⟩) 11 :=
  ⟨⟨by decide, by decide, by decide, by decide⟩,
    printForcesYear_spec (Date.gregorian ⟨2025, 1, 1⟩) (by decide) 11 (by decide) (by decide)
      (by decide)⟩

/-! ## Lemmas: week number formatting -/

theorem getD_append_left {α : Type} (l1 l2 : List α) (i : Nat) (d : α) (h : i < l1.length) :
    (l1 ++ l2).getD i d = l1.getD i d := by
  induction l1 generalizing i with
  | nil => simp at h
  | cons x tl ih =>
    cases i with
    | zero => rfl
    | succ k =>
      simp only [List.cons_append, List.getD, List.length_cons] at *
      exact ih k (by omega)

theorem getD_concat_self {α : Type} (l : List α) (x d : α) :
    (l ++ [x]).getD l.length d = x := by
  induction l with
  | nil => rfl
  | cons y tl ih =>
    simp only [List.cons_append, List.length_cons, List.getD]
    exact ih

theorem getD_range (n i : Nat) (h : i < n) : (List.range n).getD i 0 = i := by
  induction n with
  | zero => omega
  | succ k ih =>
    by_cases hk : i < k
    · rw [List.range_succ, getD_append_left _ _ _ _ (by simp; omega)]
      exact ih hk
    · have : i = k := by omega
      subst this
      rw [List.range_succ]
      have h2 := getD_concat_self (List.range i) i 0
      simpa using h2

theorem weeknumsF_length (cfg : WeekNumConfig) (d : Date) (b : Weekday) :
    (weeknumsF cfg d b).length = 6 := by
  simp [weeknumsF]

theorem weeknumsF_getD (cfg : WeekNumConfig) (d : Date) (b : Weekday) (i : Nat) (h : i < 6) :
    (weeknumsF cfg d b).getD i 0 =
      (match cfg with
       | WeekNumConfig.iso => (d.setSatDay 1).isoWeeknum
       | WeekNumConfig.based => (d.setSatDay 1).weeknum b) + i := by
  unfold weeknumsF
  rw [getD_map _ _ _ _ 0 (by simp; omega), getD_range 6 i h]

theorem formatWeeknums_length (d : Date) (b : Weekday) (cfg : WeekNumConfig)
    (hw : Option Nat) : (formatWeeknums d b cfg hw).length = 6 := by
  simp [formatWeeknums, weeknumsF]

theorem formatWeeknums_cell (d : Date) (b : Weekday) (cfg : WeekNumConfig) (hw : Option Nat)
    (i : Nat) (h : i < 6) :
    (formatWeeknums d b cfg hw).getD i [] =
      (if hw = some (fixZeroWeeknum d b ((weeknumsF cfg d b).getD i 0))
       then highlightL (spaceAligner.right cw1
         (natChars (fixZeroWeeknum d b ((weeknumsF cfg d b).getD i 0))) 2)
       else spaceAligner.right cw1
         (natChars (fixZeroWeeknum d b ((weeknumsF cfg d b).getD i 0))) 2) := by
  unfold formatWeeknums
  rw [getD_map _ _ _ _ 0 (by rw [weeknumsF_length]; omega)]

theorem countWeeks_le53 (w : Weekday) (ord : Nat) (b : Weekday) (h : ord ≤ 366) :
    w.countWeeks ord b ≤ 53 := by
  unfold Weekday.countWeeks
  have := Nat.mod_lt (w.val + (ord - 1) + (7 - b.val)) (show 0 < 7 by omega)
  omega

theorem countWeeks_yearEnd (w : Weekday) (ord : Nat) (b : Weekday) (h1 : 365 ≤ ord)
    (h2 : ord ≤ 366) : 52 ≤ w.countWeeks ord b ∧ w.countWeeks ord b ≤ 53 := by
  unfold Weekday.countWeeks
  have := Nat.mod_lt (w.val + (ord - 1) + (7 - b.val)) (show 0 < 7 by omega)
  omega

theorem countIsoWeeks_le53 (w : Weekday) (ord : Nat) (h : ord ≤ 366) :
    w.countIsoWeeks ord ≤ 53 := by
  unfold Weekday.countIsoWeeks
  have := Nat.mod_lt (w.val + (ord - 1)) (show 0 < 7 by omega)
  dsimp only
  split <;> omega

theorem Date.weeknum_le53 (d : Date) (hd : d.IsValid) (b : Weekday) : d.weeknum b ≤ 53 := by
  unfold Date.weeknum
  exact countWeeks_le53 _ _ _ (d.ordinal_bounds hd).2

theorem Date.isoWeeknum_le53 (d : Date) (hd : d.IsValid) : d.isoWeeknum ≤ 53 := by
  unfold Date.isoWeeknum
  exact countIsoWeeks_le53 _ _ (d.ordinal_bounds hd).2

theorem prevYear_weeknum_bounds (d : Date) (hd : d.IsValid) (b : Weekday) :
    52 ≤ ((d.setSatYear (d.year - 1)).setSatOrdinal 65535).weeknum b ∧
    ((d.setSatYear (d.year - 1)).setSatOrdinal 65535).weeknum b ≤ 53 := by
  have hv1 := d.setSatYear_valid hd (d.year - 1)
  have hspec := (d.setSatYear (d.year - 1)).setSatOrdinal_spec hv1 65535
  have hye := (d.setSatYear (d.year - 1)).yearEndOrdinal_bounds
  have hord : 365 ≤ ((d.setSatYear (d.year - 1)).setSatOrdinal 65535).ordinal ∧
      ((d.setSatYear (d.year - 1)).setSatOrdinal 65535).ordinal ≤ 366 := by
    rw [hspec.2.1]
    omega
  unfold Date.weeknum
  exact countWeeks_yearEnd _ _ b hord.1 hord.2

/-! ## Claims C6 and C7 -/

/-- Counterexample to C6 as stated: for January 2021 (Gregorian) under the ISO
rule with a Monday base, the ISO week number of the month's first day is 0,
and the code resolves it with the *base-weekday-rule* week number of
2020-12-31, displaying 52 — whereas recomputing "under the same rule" (ISO)
at the last ordinal of the previous year gives 53. -/
theorem formatWeeknums_zero_rule_counterexample :
    (weeknumsF WeekNumConfig.iso (Date.gregorian ⟨2021, 1, 1⟩) Weekday.mon).getD 0 0 = 0 ∧
    (formatWeeknums (Date.gregorian ⟨2021, 1, 1⟩) Weekday.mon WeekNumConfig.iso none).getD 0 []
      = natChars 52 ∧
    (((Date.gregorian ⟨2021, 1, 1⟩).setSatYear (2021 - 1)).setSatOrdinal 65535).isoWeeknum
      = 53 ∧
    ¬ (52 : Nat) = 53 := by
  decide

/-- C6 (amended): `format_weeknums` shows the configured-rule week number of
the month's first day and the five consecutive weeks after it, each
right-aligned to width 2, resolving a computed 0 by the base-weekday-rule
week number of the last ordinal of the previous year (always 52 or 53),
regardless of which rule produced the 0. -/
theorem formatWeeknums_spec (d : Date) (hd : d.IsValid) (b : Weekday) (cfg : WeekNumConfig) :
    formatWeeknumsConc d b cfg := by
  have hstart := d.setSatDay_valid hd 1
  have hprev := prevYear_weeknum_bounds d hd b
  have hbase : (match cfg with
      | WeekNumConfig.iso => (d.setSatDay 1).isoWeeknum
      | WeekNumConfig.based => (d.setSatDay 1).weeknum b) ≤ 53 := by
    cases cfg with
    | iso => exact (d.setSatDay 1).isoWeeknum_le53 hstart
    | based => exact (d.setSatDay 1).weeknum_le53 hstart b
  have hfix : ∀ i, i < 6 →
      fixZeroWeeknum d b ((weeknumsF cfg d b).getD i 0) ≤ 58 ∧
      1 ≤ fixZeroWeeknum d b ((weeknumsF cfg d b).getD i 0) := by
    intro i hi
    rw [weeknumsF_getD cfg d b i hi]
    unfold fixZeroWeeknum
    split_ifs with h0
    · omega
    · omega
  unfold formatWeeknumsConc
  refine ⟨formatWeeknums_length d b cfg none, ?_, ?_, ?_, ?_, hprev⟩
  · intro i hi
    rw [weeknumsF_getD cfg d b i hi, weeknumsF_getD cfg d b 0 (by omega)]
    omega
  · intro i hi1 hi6
    rw [weeknumsF_getD cfg d b i hi6]
    omega
  · intro i hi
    rw [formatWeeknums_cell d b cfg none i hi]
    rw [if_neg (by simp)]
  · intro i hi
    rw [formatWeeknums_cell d b cfg none i hi]
    rw [if_neg (by simp)]
    have := hfix i hi
    rw [spaceAlignRight_length _ _ (natChars_length_le_two _ (by omega))]

/-- Witness for C6 (amended): the contract at Gregorian January 2021, ISO
rule, Monday base. -/
theorem formatWeeknums_spec_witness :
    (Date.gregorian ⟨2021, 1, 1⟩).IsValid ∧
    formatWeeknumsConc (Date.gregorian ⟨2021, 1, 1⟩) Weekday.mon WeekNumConfig.iso :=
  ⟨by decide, formatWeeknums_spec (Date.gregorian ⟨2021, 1, 1⟩) (by decide) Weekday.mon
    WeekNumConfig.iso⟩

/-- Counterexample to C7 as stated: rendering November 2025 (Sunday base,
base-weekday rule), `Highlight::Week(43)` highlights the layout's *first*
week cell (displayed value 43), and `Highlight::Week(1)` — the index of that
cell by 1-based ordinal within the layout — highlights nothing (the output
equals the unhighlighted output). -/
theorem highlightWeek_counterexample :
    (formatWeeknums (Date.gregorian ⟨2025, 11, 1⟩) Weekday.sun WeekNumConfig.based
        (some 43)).getD 0 [] = highlightL (natChars 43) ∧
    formatWeeknums (Date.gregorian ⟨2025, 11, 1⟩) Weekday.sun WeekNumConfig.based (some 1) =
      formatWeeknums (Date.gregorian ⟨2025, 11, 1⟩) Weekday.sun WeekNumConfig.based none := by
  decide

/-- C7 (amended): a week-number cell is highlighted exactly when its displayed
(zero-fixed) week number equals the highlight index, independent of the cell's
position within the layout. -/
theorem formatWeeknums_highlight_spec (d : Date) (b : Weekday) (cfg : WeekNumConfig)
    (k : Nat) : highlightWeekConc d b cfg k := by
  unfold highlightWeekConc
  intro i hi
  rw [formatWeeknums_cell d b cfg (some k) i hi]
  by_cases hk : fixZeroWeeknum d b ((weeknumsF cfg d b).getD i 0) = k
  · rw [if_pos (by rw [hk]), if_pos hk]
  · rw [if_neg (by intro hcon; exact hk (Option.some.inj hcon).symm), if_neg hk]

/-! ## Lemmas: ColumnContent machinery -/

theorem getD_zipWith {α β γ : Type} (f : α → β → γ) :
    ∀ (l1 : List α) (l2 : List β) (i : Nat) (d1 : α) (d2 : β) (d3 : γ),
      i < l1.length → i < l2.length →
      (List.zipWith f l1 l2).getD i d3 = f (l1.getD i d1) (l2.getD i d2) := by
  intro l1
  induction l1 with
  | nil => intro l2 i d1 d2 d3 h1 h2; simp at h1
  | cons x tl ih =>
    intro l2 i d1 d2 d3 h1 h2
    cases l2 with
    | nil => simp at h2
    | cons y tl2 =>
      cases i with
      | zero => rfl
      | succ k =>
        simp only [List.zipWith, List.getD, List.length_cons] at *
        exact ih tl2 k d1 d2 d3 (by omega) (by omega)

theorem all_getD_iff {α : Type} (p : α → Bool) (l : List α) (dflt : α) :
    l.all p = true ↔ ∀ i, i < l.length → p (l.getD i dflt) = true := by
  induction l with
  | nil => simp
  | cons x tl ih =>
    simp only [List.all_cons, Bool.and_eq_true, List.length_cons]
    constructor
    · intro ⟨hx, htl⟩ i hi
      cases i with
      | zero => exact hx
      | succ k => exact ih.1 htl k (by omega)
    · intro h
      refine ⟨h 0 (by omega), ih.2 ?_⟩
      intro i hi
      exact h (i + 1) (by omega)

theorem grid_cell_le (d : Date) (om : Bool) (b : Weekday) (hd : d.IsValid) :
    ∀ r, r < 6 → ∀ c, c < 7 →
      cellAt ((Grid.mk d om b).newGrid) r c ≤ (if om then 999 else 99) := by
  obtain ⟨h1, h2, h3, h4, h5, hcell, hzero, hfmtAll⟩ := grid_spec_aux d om b hd
  have hso := d.startMonth_ordinal_bound hd
  intro r hr c hc
  rw [hcell r hr c hc]
  by_cases hom : om <;> (simp only [hom, if_true, if_false]; split_ifs <;> omega)

theorem grid_format_trim (d : Date) (om : Bool) (b : Weekday) (hd : d.IsValid)
    (hday : Option Date) : ∀ r, r < 6 → ∀ c, c < 7 →
      (trimStartIsEmpty (scellAt ((Grid.mk d om b).format hday) r c) = true ↔
        cellAt ((Grid.mk d om b).newGrid) r c = 0) := by
  obtain ⟨hlen, hrow, h3, h4, h5, hcell, hzero, hfmtAll⟩ := grid_spec_aux d om b hd
  have hle := grid_cell_le d om b hd
  intro r hr c hc
  unfold Grid.format scellAt
  rw [getD_map _ _ _ _ [] (by omega)]
  rw [getD_map _ _ _ _ 0 (by rw [hrow r hr]; omega)]
  have hcc : ((Grid.mk d om b).newGrid.getD r []).getD c 0 =
      cellAt ((Grid.mk d om b).newGrid) r c := rfl
  simp only [hcc]
  by_cases hv : cellAt ((Grid.mk d om b).newGrid) r c = 0
  · rw [if_pos hv]
    have hblank : (Grid.mk d om b).formatInDayCell [] =
        List.replicate (Grid.mk d om b).dayCellWidth ' ' :=
      spaceAlignRight_nil (Grid.mk d om b).dayCellWidth
    rw [hblank, trimStartIsEmpty_replicate]
    simp [hv]
  · rw [if_neg hv]
    have hval := hle r hr c hc
    have hone : 1 ≤ cellAt ((Grid.mk d om b).newGrid) r c := by omega
    have hne : (natChars (cellAt ((Grid.mk d om b).newGrid) r c)).length ≤
        (Grid.mk d om b).dayCellWidth := by
      show _ ≤ (if om then 3 else 2)
      by_cases hom : om
      · rw [if_pos hom] at *
        exact natChars_length_le_three _ (by omega)
      · rw [if_neg hom] at *
        exact natChars_length_le_two _ (by omega)
    have htr := trimStartIsEmpty_nonblank (cellAt ((Grid.mk d om b).newGrid) r c)
      (Grid.mk d om b).dayCellWidth hone hne
    have hfd : (Grid.mk d om b).formatInDayCell
        (natChars (cellAt ((Grid.mk d om b).newGrid) r c)) =
        spaceAligner.right cw1 (natChars (cellAt ((Grid.mk d om b).newGrid) r c))
          (Grid.mk d om b).dayCellWidth := rfl
    constructor
    · intro hcon
      exfalso
      simp only [hfd] at hcon
      split at hcon
      · rw [htr.2] at hcon
        exact Bool.false_ne_true hcon
      · rw [htr.1] at hcon
        exact Bool.false_ne_true hcon
    · intro hcon
      exact absurd hcon hv

theorem formatWeekdaysForce_spec (wk : Option WeekNumConfig) (wb wd wdb : Bool) (g : Grid) :
    (ColumnContent.mk wk wb wd wdb g).formatWeekdaysForce.length =
      7 + (if wk.isSome then 1 else 0) := by
  unfold ColumnContent.formatWeekdaysForce
  dsimp only
  cases wk with
  | none => simp [weekdaysF]
  | some cfg => split_ifs <;> simp [weekdaysF]

theorem getD_zipWith2 {α β γ : Type} {f : α → β → γ} {l1 : List α} {l2 : List β} {i : Nat}
    (h1 : i < l1.length) (h2 : i < l2.length) (d1 : α) (d2 : β) (d3 : γ) :
    (List.zipWith f l1 l2).getD i d3 = f (l1.getD i d1) (l2.getD i d2) :=
  getD_zipWith f l1 l2 i d1 d2 d3 h1 h2

theorem getD_append_length {α : Type} (l1 : List α) (x d : α) (n : Nat)
    (h : l1.length = n) : (l1 ++ [x]).getD n d = x := by
  subst h
  exact getD_concat_self l1 x d

theorem columnContent_weeknum_cond (d : Date) (om : Bool) (b : Weekday) (hd : d.IsValid)
    (hday : Option Date) : ∀ i, i < 6 →
    ((((Grid.mk d om b).format hday).getD i []).all (fun cell => trimStartIsEmpty cell) = true
      ↔ (((Grid.mk d om b).newGrid.getD i []).all (fun cell => cell == 0)) = true) := by
  obtain ⟨hglen0, hgrow0, h3, h4, h5, hcell, hzero, hfmtAll⟩ := grid_spec_aux d om b hd
  obtain ⟨hflen, hfrow, hfblank⟩ := hfmtAll hday
  have htrim := grid_format_trim d om b hd hday
  intro i hi
  have hA := all_getD_iff (fun cell => trimStartIsEmpty cell)
    (((Grid.mk d om b).format hday).getD i []) []
  have hB := all_getD_iff (fun cell => cell == 0) ((Grid.mk d om b).newGrid.getD i []) 0
  rw [hfrow i hi] at hA
  rw [hgrow0 i hi] at hB
  constructor
  · intro hAl
    apply hB.2
    intro j hj
    have h1 := hA.1 hAl j hj
    have h2 := (htrim i hi j hj).1 h1
    simpa [cellAt] using h2
  · intro hBl
    apply hA.2
    intro j hj
    have h2 := hB.1 hBl j hj
    have h0 : cellAt ((Grid.mk d om b).newGrid) i j = 0 := by simpa [cellAt] using h2
    exact (htrim i hi j hj).2 h0

theorem weeknumAttachRow_length (wb : Bool) (r : List (List Char)) (v : List Char) :
    (weeknumAttachRow wb r v).length = r.length + 1 := by
  unfold weeknumAttachRow
  cases wb <;> simp

theorem weeknumAttachRow_col7 (wb : Bool) {r : List (List Char)} (v : List Char)
    (h7 : r.length = 7) :
    (weeknumAttachRow wb r v).getD (if wb then 0 else 7) [] =
      (if r.all (fun cell => trimStartIsEmpty cell) then weeknumEmptyCell else v) := by
  unfold weeknumAttachRow
  cases wb with
  | false =>
    simp only [Bool.false_eq_true, if_false]
    rw [getD_append_length _ _ _ _ h7]
  | true => simp

theorem attachOuter_length {α : Type} (wd wdb : Bool) (W : α) (L : List α) :
    (attachOuter wd wdb W L).length = L.length + (if wd then 1 else 0) := by
  unfold attachOuter
  cases wd <;> cases wdb <;> simp

theorem attachOuter_getD6 {α : Type} (wd wdb : Bool) (W : α) {L : List α} (r : Nat) (d : α)
    (h6 : L.length = 6) (hr : r < 6) :
    (attachOuter wd wdb W L).getD (r + (if wd = true ∧ wdb = true then 1 else 0)) d =
      L.getD r d := by
  unfold attachOuter
  cases wd with
  | false => simp
  | true =>
    cases wdb with
    | true => simp
    | false =>
      have hrl : r < L.length := by omega
      show (L ++ [W]).getD (r + 0) d = L.getD r d
      rw [Nat.add_zero, getD_append_left _ _ _ _ hrl]

theorem attachOuter_rows {α : Type} (wd wdb : Bool) (W : α) (L : List α) (r : Nat) (d : α)
    (hr : r < L.length + (if wd then 1 else 0)) :
    (attachOuter wd wdb W L).getD r d = W ∨
      ∃ k, k < L.length ∧ (attachOuter wd wdb W L).getD r d = L.getD k d := by
  unfold attachOuter
  cases wd with
  | false =>
    right
    refine ⟨r, by simpa using hr, by simp⟩
  | true =>
    cases wdb with
    | true =>
      cases r with
      | zero => left; simp
      | succ k =>
        right
        refine ⟨k, by simp at hr; omega, by simp⟩
    | false =>
      by_cases hrl : r < L.length
      · right
        refine ⟨r, hrl, ?_⟩
        show (L ++ [W]).getD r d = L.getD r d
        rw [getD_append_left _ _ _ _ hrl]
      · left
        have hre : r = L.length := by simp at hr; omega
        subst hre
        show (L ++ [W]).getD L.length d = W
        exact getD_concat_self L W d

/-- C9: `ColumnContent::format` always returns a matrix of exactly
`row_cols()` rows and columns, for every combination of the weekday and
week-number flags and any optional highlight; and when the week-number lane is
enabled, the extra cell attached to each grid row (prepended or appended as
configured) is the blank `WEEKNUM_EMPTY` cell exactly when that grid row is
entirely blank, otherwise the corresponding `format_weeknums` cell. -/
theorem columnContent_format_spec (wk : Option WeekNumConfig) (wb wd wdb : Bool)
    (d : Date) (om : Bool) (b : Weekday) (hl : Option Highlight) (hd : d.IsValid) :
    columnContentConc (ColumnContent.mk wk wb wd wdb (Grid.mk d om b)) hl := by
  obtain ⟨hglen0, hgrow0, h3x, h4x, h5x, hcellx, hzerox, hfmtAll⟩ := grid_spec_aux d om b hd
  obtain ⟨hflen, hfrow, hfblank⟩ := hfmtAll (hl.bind Highlight.day?)
  have hwf := formatWeekdaysForce_spec wk wb wd wdb (Grid.mk d om b)
  have hcond := columnContent_weeknum_cond d om b hd (hl.bind Highlight.day?)
  unfold columnContentConc
  cases wk with
  | none =>
    refine ⟨?_, ?_, ?_⟩
    · show (attachOuter wd wdb ((ColumnContent.mk (none : Option WeekNumConfig) wb wd wdb (Grid.mk d om b)).formatWeekdaysForce) ((Grid.mk d om b).format (hl.bind Highlight.day?))).length = 6 + (if wd then 1 else 0)
      rw [attachOuter_length, hflen]
    · show ∀ r, r < 6 + (if wd then 1 else 0) →
        ((attachOuter wd wdb ((ColumnContent.mk (none : Option WeekNumConfig) wb wd wdb (Grid.mk d om b)).formatWeekdaysForce) ((Grid.mk d om b).format (hl.bind Highlight.day?))).getD r []).length = 7
      intro r hr
      rcases attachOuter_rows wd wdb ((ColumnContent.mk (none : Option WeekNumConfig) wb wd wdb (Grid.mk d om b)).formatWeekdaysForce) ((Grid.mk d om b).format (hl.bind Highlight.day?)) r [] (by rw [hflen]; exact hr) with
        hW | ⟨k, hk, hrow⟩
      · rw [hW]
        simpa using hwf
      · rw [hrow]
        exact hfrow k (by rw [hflen] at hk; exact hk)
    · intro cfg hcfg
      simp at hcfg
  | some cfg =>
    have hClen : (formatWeeknums d b cfg (hl.bind Highlight.week?)).length = 6 := formatWeeknums_length d b cfg (hl.bind Highlight.week?)
    have hZlen : (List.zipWith (weeknumAttachRow wb) ((Grid.mk d om b).format (hl.bind Highlight.day?)) (formatWeeknums d b cfg (hl.bind Highlight.week?))).length = 6 := by
      simp [List.length_zipWith, hflen, hClen]
    have hZrow : ∀ k, k < 6 → (List.zipWith (weeknumAttachRow wb) ((Grid.mk d om b).format (hl.bind Highlight.day?)) (formatWeeknums d b cfg (hl.bind Highlight.week?))).getD k [] =
        weeknumAttachRow wb (((Grid.mk d om b).format (hl.bind Highlight.day?)).getD k []) ((formatWeeknums d b cfg (hl.bind Highlight.week?)).getD k []) := by
      intro k hk
      exact getD_zipWith (weeknumAttachRow wb) _ _ k [] [] []
        (by rw [hflen]; omega) (by rw [hClen]; omega)
    refine ⟨?_, ?_, ?_⟩
    · show (attachOuter wd wdb ((ColumnContent.mk (some cfg) wb wd wdb (Grid.mk d om b)).formatWeekdaysForce) (List.zipWith (weeknumAttachRow wb) ((Grid.mk d om b).format (hl.bind Highlight.day?)) (formatWeeknums d b cfg (hl.bind Highlight.week?)))).length = 6 + (if wd then 1 else 0)
      rw [attachOuter_length, hZlen]
    · show ∀ r, r < 6 + (if wd then 1 else 0) →
        ((attachOuter wd wdb ((ColumnContent.mk (some cfg) wb wd wdb (Grid.mk d om b)).formatWeekdaysForce) (List.zipWith (weeknumAttachRow wb) ((Grid.mk d om b).format (hl.bind Highlight.day?)) (formatWeeknums d b cfg (hl.bind Highlight.week?)))).getD r []).length = 8
      intro r hr
      rcases attachOuter_rows wd wdb ((ColumnContent.mk (some cfg) wb wd wdb (Grid.mk d om b)).formatWeekdaysForce) (List.zipWith (weeknumAttachRow wb) ((Grid.mk d om b).format (hl.bind Highlight.day?)) (formatWeeknums d b cfg (hl.bind Highlight.week?))) r [] (by rw [hZlen]; exact hr) with
        hW | ⟨k, hk, hrow⟩
      · rw [hW]
        simpa using hwf
      · have hk6 : k < 6 := by rw [hZlen] at hk; exact hk
        rw [hrow, hZrow k hk6, weeknumAttachRow_length, hfrow k hk6]
    · show ∀ cfg2, (some cfg : Option WeekNumConfig) = some cfg2 → ∀ i, i < 6 →
        scellAt (attachOuter wd wdb ((ColumnContent.mk (some cfg) wb wd wdb (Grid.mk d om b)).formatWeekdaysForce) (List.zipWith (weeknumAttachRow wb) ((Grid.mk d om b).format (hl.bind Highlight.day?)) (formatWeeknums d b cfg (hl.bind Highlight.week?))))
            (i + (if wd = true ∧ wdb = true then 1 else 0)) (if wb then 0 else 7) =
          (if ((Grid.mk d om b).newGrid.getD i []).all (fun cell => cell == 0)
           then weeknumEmptyCell
           else (formatWeeknums d b cfg2 (hl.bind Highlight.week?)).getD i [])
      intro cfg2 hc2 i hi
      injection hc2 with hc2
      subst hc2
      unfold scellAt
      rw [attachOuter_getD6 wd wdb ((ColumnContent.mk (some cfg) wb wd wdb (Grid.mk d om b)).formatWeekdaysForce) i [] hZlen hi]
      rw [hZrow i hi]
      rw [weeknumAttachRow_col7 wb _ (hfrow i hi)]
      by_cases hall : (((Grid.mk d om b).format (hl.bind Highlight.day?)).getD i []).all (fun cell => trimStartIsEmpty cell) = true
      · rw [if_pos hall, if_pos ((hcond i hi).1 hall)]
      · rw [if_neg hall, if_neg (fun hb => hall ((hcond i hi).2 hb))]

/-- Witness for the C9 theorem: the November 2025 layout with week numbers,
weekday row and both lanes placed before the grid. -/
theorem columnContent_format_spec_witness :
    (Date.gregorian ⟨2025, 11, 7⟩).IsValid ∧
    columnContentConc (ColumnContent.mk (some WeekNumConfig.based) true true true
      (Grid.mk (Date.gregorian ⟨2025, 11, 7⟩) false Weekday.sun)) none :=
  ⟨by decide, columnContent_format_spec (some WeekNumConfig.based) true true true
    (Date.gregorian ⟨2025, 11, 7⟩) false Weekday.sun none (by decide)⟩

end JCal
